import Mathlib

/-!
# thread-maestro: the scheduling engine of `thread_manager.cpp`

A shallow embedding of the entity registry (`ThreadManager`), of the priority
scheduler (`PriorityScheduler`) and of the tick driver (`simulationStep`),
followed by the properties proved about them.

Modelling conventions.

* `std::vector<ThreadInfo>` is a `List ThreadInfo`; a `ThreadInfo*` into the
  vector is the pair of the index and the entity stored there.
* `int` is `Int`. Signed overflow is undefined behaviour in C++, so the results
  speak about executions in which no `int` computation leaves the 32 bit range.
* `double` is `ℚ`: the arithmetic is exact, `std::max` and `std::min` are
  written out as the comparisons the standard library makes.
* Every draw from a `random_device` and every clock reading is an explicit
  argument of the operation that makes it.
* Console output (`cout`) and the mutex are not part of the state.
* The file that `exportToCSV` writes is the `String` of its content; a `double`
  on the stream is written by `fixed2`, on the exact value.
-/

namespace ThreadMaestro

/-! ## Data model -/

/-- The enumeration `ThreadState`. -/
inductive ThreadState where
  | RUNNING
  | PAUSED
  | STOPPED
  | WAITING
  | COMPLETED
  deriving DecidableEq, Repr

/-- The enumeration `ThreadPriority` (`LOW = 1`, ..., `CRITICAL = 4`). -/
inductive ThreadPriority where
  | LOW
  | MEDIUM
  | HIGH
  | CRITICAL
  deriving DecidableEq, Repr

/-- The value of `static_cast<int>(priority)`. -/
def ThreadPriority.toInt : ThreadPriority → Int
  | .LOW => 1
  | .MEDIUM => 2
  | .HIGH => 3
  | .CRITICAL => 4

/-- The record `ThreadInfo`. -/
structure ThreadInfo where
  id : Int
  name : String
  state : ThreadState
  priority : ThreadPriority
  cpuUsage : ℚ
  memoryUsage : ℚ
  startTime : Nat
  executionTime : Int
  burstTime : Int
  parentId : Int
  deriving DecidableEq, Repr

/-- The constructor `ThreadInfo::ThreadInfo`: `now` is the clock reading and
`memDraw` the value drawn from `uniform_real_distribution(50.0, 200.0)`. -/
def ThreadInfo.new (_id : Int) (_name : String) (_priority : ThreadPriority)
    (_burstTime : Int) (_parentId : Int) (now : Nat) (memDraw : ℚ) : ThreadInfo :=
  { id := _id
    name := _name
    state := .RUNNING
    priority := _priority
    cpuUsage := 0
    memoryUsage := memDraw
    startTime := now
    executionTime := 0
    burstTime := _burstTime
    parentId := _parentId }

/-! ## PriorityScheduler -/

/-- The table `PriorityScheduler::priorityWeights`. -/
def priorityWeights : ThreadPriority → Int
  | .LOW => 1
  | .MEDIUM => 2
  | .HIGH => 3
  | .CRITICAL => 4

/-- The loop of `calculateCpuShare` that adds up the weights of the RUNNING
entities of `allThreads`. -/
def totalWeight (allThreads : List ThreadInfo) : Int :=
  allThreads.foldl
    (fun acc t => if t.state = ThreadState.RUNNING then acc + priorityWeights t.priority else acc) 0

/-- What `std::max(a, b)` returns. -/
def stdMax (a b : ℚ) : ℚ := if a < b then b else a

/-- What `std::min(a, b)` returns. -/
def stdMin (a b : ℚ) : ℚ := if b < a then b else a

/-- The function `PriorityScheduler::calculateCpuShare`; `variance` is the value
drawn from `uniform_real_distribution(-5.0, 5.0)`. -/
def calculateCpuShare (thread : ThreadInfo) (allThreads : List ThreadInfo) (variance : ℚ) : ℚ :=
  if thread.state ≠ ThreadState.RUNNING then 0
  else
    let total := totalWeight allThreads
    if total = 0 then 0
    else
      let threadWeight := priorityWeights thread.priority
      let baseShare := ((threadWeight : ℚ) / (total : ℚ)) * 100
      stdMax 0 (stdMin 100 (baseShare + variance))

/-- The comparator handed to `std::sort` in `getNextThread`. -/
def nextThreadBefore (a b : ThreadInfo) : Bool :=
  if a.priority.toInt ≠ b.priority.toInt then decide (a.priority.toInt > b.priority.toInt)
  else decide (a.executionTime < b.executionTime)

/-- One insertion of the insertion sort: `x` goes in front of the first element
that it has to precede. -/
def sortInsert {α : Type} (before : α → α → Bool) (x : α) : List α → List α
  | [] => [x]
  | y :: ys => if before x y then x :: y :: ys else y :: sortInsert before x ys

/-- The call `std::sort(first, last, before)`. The standard leaves the relative
order of equivalent elements open; the model takes the insertion sort that
libstdc++ runs on ranges of at most sixteen elements. -/
def stdSort {α : Type} (before : α → α → Bool) (l : List α) : List α :=
  l.foldl (fun acc x => sortInsert before x acc) []

/-- The function `PriorityScheduler::getNextThread`. The result is the pointer
`runningThreads[0]`, given as the index into `threads` and the entity there;
`none` is `nullptr`. -/
def getNextThread (threads : List ThreadInfo) : Option (Nat × ThreadInfo) :=
  let runningThreads := threads.enum.filter (fun p => decide (p.2.state = ThreadState.RUNNING))
  if runningThreads.isEmpty then none
  else (stdSort (fun a b => nextThreadBefore a.2 b.2) runningThreads).head?

/-- A list is in sorted order for `before` when no element has to precede one
that stands in front of it. -/
def SortedBy {α : Type} (before : α → α → Bool) (l : List α) : Prop :=
  l.Pairwise (fun a b => before b a = false)

/-! ## ThreadManager -/

/-- The registry part of `ThreadManager`: the vector `threads` and the counter
`nextThreadId`. -/
structure ThreadManager where
  threads : List ThreadInfo
  nextThreadId : Int
  deriving DecidableEq, Repr

/-- A freshly constructed `ThreadManager`. -/
def ThreadManager.init : ThreadManager :=
  { threads := [], nextThreadId := 1 }

/-- The member `timeQuantum`, initialised to 1000 and never assigned again. -/
def timeQuantum : Int := 1000

/-- The function `ThreadManager::createThread`. `randBurst` is the value that
`generateRandomBurstTime` returns when it is called, `now` and `memDraw` are
the clock reading and the draw made by the constructor of the entity. The
result is the returned id and the registry after the call. -/
def createThread (m : ThreadManager) (name : String) (priority : ThreadPriority)
    (customBurstTime : Int) (parentId : Int) (randBurst : Int) (now : Nat) (memDraw : ℚ) :
    Int × ThreadManager :=
  let name1 := if name.isEmpty then "Thread-" ++ toString m.nextThreadId else name
  let burstTime := if customBurstTime > 0 then customBurstTime else randBurst
  (m.nextThreadId,
    { threads := m.threads ++
        [ThreadInfo.new m.nextThreadId name1 priority burstTime parentId now memDraw]
      nextThreadId := m.nextThreadId + 1 })

/-- The call `find_if(first, last, p)`: the position of the first element that
satisfies `p`, `none` for the end iterator. -/
def findIf (p : ThreadInfo → Bool) : List ThreadInfo → Option Nat
  | [] => none
  | t :: rest => if p t then some 0 else (findIf p rest).map (fun i => i + 1)

/-- The function `ThreadManager::deleteThread`. -/
def deleteThread (m : ThreadManager) (threadId : Int) : Bool × ThreadManager :=
  match findIf (fun t => decide (t.id = threadId)) m.threads with
  | some it => (true, { m with threads := m.threads.eraseIdx it })
  | none => (false, m)

/-- The loop of `updateThreadState`, which returns at the first entity whose id
is `threadId`. -/
def updateThreadStateLoop (threadId : Int) (newState : ThreadState) :
    List ThreadInfo → Bool × List ThreadInfo
  | [] => (false, [])
  | thread :: rest =>
    if thread.id = threadId then
      let thread1 := { thread with state := newState }
      let thread2 :=
        if newState = ThreadState.STOPPED ∨ newState = ThreadState.COMPLETED then
          { thread1 with cpuUsage := 0 }
        else thread1
      (true, thread2 :: rest)
    else
      let r := updateThreadStateLoop threadId newState rest
      (r.1, thread :: r.2)

/-- The function `ThreadManager::updateThreadState`. -/
def updateThreadState (m : ThreadManager) (threadId : Int) (newState : ThreadState) :
    Bool × ThreadManager :=
  let r := updateThreadStateLoop threadId newState m.threads
  (r.1, { m with threads := r.2 })

/-- The function `ThreadManager::pauseThread`. -/
def pauseThread (m : ThreadManager) (threadId : Int) : ThreadManager :=
  (updateThreadState m threadId ThreadState.PAUSED).2

/-- The function `ThreadManager::resumeThread`. -/
def resumeThread (m : ThreadManager) (threadId : Int) : ThreadManager :=
  (updateThreadState m threadId ThreadState.RUNNING).2

/-- The function `ThreadManager::stopThread`. -/
def stopThread (m : ThreadManager) (threadId : Int) : ThreadManager :=
  (updateThreadState m threadId ThreadState.STOPPED).2

/-- The loop of `updateThreadPriority`. -/
def updateThreadPriorityLoop (threadId : Int) (newPriority : ThreadPriority) :
    List ThreadInfo → Bool × List ThreadInfo
  | [] => (false, [])
  | thread :: rest =>
    if thread.id = threadId then (true, { thread with priority := newPriority } :: rest)
    else
      let r := updateThreadPriorityLoop threadId newPriority rest
      (r.1, thread :: r.2)

/-- The function `ThreadManager::updateThreadPriority`. -/
def updateThreadPriority (m : ThreadManager) (threadId : Int) (newPriority : ThreadPriority) :
    Bool × ThreadManager :=
  let r := updateThreadPriorityLoop threadId newPriority m.threads
  (r.1, { m with threads := r.2 })

/-- The function `ThreadManager::pauseAllThreads`. -/
def pauseAllThreads (m : ThreadManager) : ThreadManager :=
  { m with threads := m.threads.map (fun thread =>
      if thread.state = ThreadState.RUNNING then { thread with state := ThreadState.PAUSED }
      else thread) }

/-- The function `ThreadManager::resumeAllThreads`. -/
def resumeAllThreads (m : ThreadManager) : ThreadManager :=
  { m with threads := m.threads.map (fun thread =>
      if thread.state = ThreadState.PAUSED then { thread with state := ThreadState.RUNNING }
      else thread) }

/-- The function `ThreadManager::stopAllThreads`. -/
def stopAllThreads (m : ThreadManager) : ThreadManager :=
  { m with threads := m.threads.map (fun thread =>
      if thread.state ≠ ThreadState.COMPLETED then
        { thread with state := ThreadState.STOPPED, cpuUsage := 0 }
      else thread) }

/-- The three statements that the loop of `simulationStep` runs on a RUNNING
entity; `share` is the value that `calculateCpuShare` returned for it. -/
def tickThread (thread : ThreadInfo) (share : ℚ) : ThreadInfo :=
  let thread1 := { thread with cpuUsage := share }
  let thread2 := { thread1 with executionTime := thread1.executionTime + timeQuantum }
  if thread2.executionTime ≥ thread2.burstTime then
    { thread2 with state := ThreadState.COMPLETED, cpuUsage := 0 }
  else thread2

/-- The loop of `simulationStep`. The vector is updated in place: `done` holds
the entities already visited, as they are now, and the second list the ones
still to visit, so that `calculateCpuShare` reads the vector as it stands when
the entity is reached. `noise i` is the value drawn for the entity at
position `i`. -/
def simulationLoop (noise : Nat → ℚ) (done : List ThreadInfo) : List ThreadInfo → List ThreadInfo
  | [] => done
  | thread :: rest =>
    if thread.state = ThreadState.RUNNING then
      simulationLoop noise
        (done ++ [tickThread thread
          (calculateCpuShare thread (done ++ thread :: rest) (noise done.length))]) rest
    else simulationLoop noise (done ++ [thread]) rest

/-- The function `ThreadManager::simulationStep`. -/
def simulationStep (m : ThreadManager) (noise : Nat → ℚ) : ThreadManager :=
  { m with threads := simulationLoop noise [] m.threads }

/-- Consecutive calls of `simulationStep`, one for every element of `noises`. -/
def simulationSteps (m : ThreadManager) (noises : List (Nat → ℚ)) : ThreadManager :=
  noises.foldl simulationStep m

/-- A call of one of the public operations that change the registry, with the
values it draws. -/
inductive Op where
  | createThread (name : String) (priority : ThreadPriority) (customBurstTime : Int)
      (parentId : Int) (randBurst : Int) (now : Nat) (memDraw : ℚ)
  | deleteThread (threadId : Int)
  | updateThreadState (threadId : Int) (newState : ThreadState)
  | pauseThread (threadId : Int)
  | resumeThread (threadId : Int)
  | stopThread (threadId : Int)
  | updateThreadPriority (threadId : Int) (newPriority : ThreadPriority)
  | pauseAllThreads
  | resumeAllThreads
  | stopAllThreads
  | simulationStep (noise : Nat → ℚ)

/-- The registry after the call `op`. -/
def applyOp (m : ThreadManager) : Op → ThreadManager
  | .createThread name priority customBurstTime parentId randBurst now memDraw =>
    (createThread m name priority customBurstTime parentId randBurst now memDraw).2
  | .deleteThread threadId => (deleteThread m threadId).2
  | .updateThreadState threadId newState => (updateThreadState m threadId newState).2
  | .pauseThread threadId => pauseThread m threadId
  | .resumeThread threadId => resumeThread m threadId
  | .stopThread threadId => stopThread m threadId
  | .updateThreadPriority threadId newPriority =>
    (updateThreadPriority m threadId newPriority).2
  | .pauseAllThreads => pauseAllThreads m
  | .resumeAllThreads => resumeAllThreads m
  | .stopAllThreads => stopAllThreads m
  | .simulationStep noise => simulationStep m noise

/-- The registry reached from the empty one by the calls `ops`, in order. -/
def runOps (ops : List Op) : ThreadManager :=
  ops.foldl applyOp ThreadManager.init

/-- What the loop of `simulationStep` leaves at a position: an entity that is
not RUNNING when it is reached stays as it is, a RUNNING one goes through
`tickThread` with the share computed over `cur`, the vector at that moment. -/
def tickAt (noise : Nat → ℚ) (cur : List ThreadInfo) (pos : Nat) (t : ThreadInfo) : ThreadInfo :=
  if t.state = ThreadState.RUNNING then tickThread t (calculateCpuShare t cur (noise pos)) else t

/-- The condition of an entity with burstTime `b` that has been RUNNING from
executionTime 0 and has seen `k` ticks. -/
def AfterTicks (b : Int) (k : Nat) (t : ThreadInfo) : Prop :=
  t.burstTime = b ∧
  t.executionTime = 1000 * min (k : Int) ((b + 999) / 1000) ∧
  (1000 * (k : Int) ≥ b → t.state = ThreadState.COMPLETED ∧ t.cpuUsage = 0) ∧
  (¬ 1000 * (k : Int) ≥ b → t.state = ThreadState.RUNNING)

/-- The entity that `updateThreadState` leaves in place of the entity `t` it
has found. -/
def withState (t : ThreadInfo) (newState : ThreadState) : ThreadInfo :=
  { t with
    state := newState
    cpuUsage :=
      if newState = ThreadState.STOPPED ∨ newState = ThreadState.COMPLETED then 0 else t.cpuUsage }

/-- The ids of the live entities are pairwise distinct and all below the
counter `nextThreadId`. -/
def IdsFresh (m : ThreadManager) : Prop :=
  (m.threads.map (fun t => t.id)).Nodup ∧
    ∀ x ∈ m.threads.map (fun t => t.id), x < m.nextThreadId

/-- An entity that is STOPPED or COMPLETED has cpuUsage 0. -/
def StoppedZero (t : ThreadInfo) : Prop :=
  t.state = ThreadState.COMPLETED ∨ t.state = ThreadState.STOPPED → t.cpuUsage = 0

/-- The values that the calls of `createThread` among `ops` return, in order,
when `ops` run from the registry `m`. -/
def createdIds (m : ThreadManager) : List Op → List Int
  | [] => []
  | Op.createThread name priority customBurstTime parentId randBurst now memDraw :: ops =>
    (createThread m name priority customBurstTime parentId randBurst now memDraw).1 ::
      createdIds
        (applyOp m (Op.createThread name priority customBurstTime parentId randBurst now memDraw))
        ops
  | op :: ops => createdIds (applyOp m op) ops

/-- The value `baseShare` that `calculateCpuShare` computes before it adds the
perturbation: the weight of the entity over the total weight, times 100. -/
def baseShare (thread : ThreadInfo) (allThreads : List ThreadInfo) : ℚ :=
  ((priorityWeights thread.priority : ℚ) / (totalWeight allThreads : ℚ)) * 100

/-! ## CSV export -/

/-- The function `ThreadManager::stateToString`. -/
def stateToString : ThreadState → String
  | .RUNNING => "RUNNING"
  | .PAUSED => "PAUSED"
  | .STOPPED => "STOPPED"
  | .WAITING => "WAITING"
  | .COMPLETED => "COMPLETED"

/-- The function `ThreadManager::priorityToString`. -/
def priorityToString : ThreadPriority → String
  | .LOW => "LOW"
  | .MEDIUM => "MEDIUM"
  | .HIGH => "HIGH"
  | .CRITICAL => "CRITICAL"

/-- The text that `<<` writes for a `double` once `fixed` and `setprecision(2)`
are set on the stream: a minus sign for a negative value, the integer part, a
point and two decimals, the value being rounded to hundredths. -/
def fixed2 (x : ℚ) : String :=
  let hundredths : Nat := (Rat.floor (|x| * 100 + 1 / 2)).toNat
  (if x < 0 then "-" else "") ++ toString (hundredths / 100) ++ "." ++
    toString (hundredths % 100 / 10) ++ toString (hundredths % 10)

/-- The header line that `exportToCSV` writes first. -/
def csvHeader : String :=
  "ID,Name,State,Priority,CPU Usage (%),Memory (MB),Execution Time (ms),Burst Time (ms),Progress (%)\n"

/-- The line that the loop of `exportToCSV` writes for one entity. The
manipulators `fixed` and `setprecision(2)` come before the first `double` of
the line, so that every `double` is written with two decimals; the `int`
fields are written in decimal. -/
def csvRow (thread : ThreadInfo) : String :=
  let progress : ℚ := ((thread.executionTime : ℚ) / (thread.burstTime : ℚ)) * 100
  toString thread.id ++ "," ++ thread.name ++ "," ++ stateToString thread.state ++ "," ++
    priorityToString thread.priority ++ "," ++ fixed2 thread.cpuUsage ++ "," ++
    fixed2 thread.memoryUsage ++ "," ++ toString thread.executionTime ++ "," ++
    toString thread.burstTime ++ "," ++ fixed2 progress ++ "\n"

/-- The function `ThreadManager::exportToCSV`: the text written to the file. -/
def exportToCSV (m : ThreadManager) : String :=
  m.threads.foldl (fun file thread => file ++ csvRow thread) csvHeader

/-! ## The re-parser of the CSV round trip

The repository holds no CSV parser. The definitions below follow the words of
the specification: skip the header line, split every row on commas, read the
columns ID, Execution Time (ms) and Burst Time (ms). -/

/-- The pieces of a text between the occurrences of the separator. -/
def splitOn (sep : Char) : List Char → List (List Char)
  | [] => [[]]
  | c :: cs =>
    if c = sep then [] :: splitOn sep cs
    else
      match splitOn sep cs with
      | [] => [[c]]
      | piece :: pieces => (c :: piece) :: pieces

/-- The lines of a text: the pieces between line breaks, without the empty
piece that follows the last line break. -/
def csvLines (text : List Char) : List (List Char) :=
  if (splitOn (Char.ofNat 10) text).getLast? = some [] then
    (splitOn (Char.ofNat 10) text).dropLast
  else splitOn (Char.ofNat 10) text

/-- A decimal number without sign: at least one character, digits only. -/
def parseNat (cs : List Char) : Option Nat :=
  if cs ≠ [] ∧ cs.all Char.isDigit = true then
    some (cs.foldl (fun acc c => acc * 10 + (c.toNat - 48)) 0)
  else none

/-- A decimal integer, with a minus sign in front when it is negative. -/
def parseInt (cs : List Char) : Option Int :=
  if cs.head? = some (Char.ofNat 45) then (parseNat cs.tail).map (fun n => -(n : Int))
  else (parseNat cs).map (fun n => (n : Int))

/-- The columns ID, Execution Time (ms) and Burst Time (ms) of a row: the
fields 0, 6 and 7 of the row split on commas. -/
def parseRow (row : List Char) : Option (Int × Int × Int) :=
  match (splitOn (Char.ofNat 44) row)[0]?, (splitOn (Char.ofNat 44) row)[6]?,
      (splitOn (Char.ofNat 44) row)[7]? with
  | some f0, some f6, some f7 =>
    match parseInt f0, parseInt f6, parseInt f7 with
    | some id, some executionTime, some burstTime => some (id, executionTime, burstTime)
    | _, _, _ => none
  | _, _, _ => none

/-- All rows parsed, in order; no result when a row cannot be read. -/
def parseRows : List (List Char) → Option (List (Int × Int × Int))
  | [] => some []
  | row :: rows =>
    match parseRow row, parseRows rows with
    | some r, some rs => some (r :: rs)
    | _, _ => none

/-- The re-parser of the round trip: the rows after the header line. -/
def reparseCSV (text : String) : Option (List (Int × Int × Int)) :=
  parseRows ((csvLines text.data).drop 1)

/-- A text holds neither a comma nor a line break. -/
def NoSep (l : List Char) : Prop :=
  Char.ofNat 44 ∉ l ∧ Char.ofNat 10 ∉ l

/-- The fields of a line, one after the other with a comma in between. -/
def joinFields : List (List Char) → List Char
  | [] => []
  | [f] => f
  | f :: g :: fs => f ++ Char.ofNat 44 :: joinFields (g :: fs)

/-- The nine fields that `exportToCSV` writes for an entity. -/
def csvFields (thread : ThreadInfo) : List (List Char) :=
  [(toString thread.id).data, thread.name.data, (stateToString thread.state).data,
    (priorityToString thread.priority).data, (fixed2 thread.cpuUsage).data,
    (fixed2 thread.memoryUsage).data, (toString thread.executionTime).data,
    (toString thread.burstTime).data,
    (fixed2 (((thread.executionTime : ℚ) / (thread.burstTime : ℚ)) * 100)).data]

/-- The text of the lines that `exportToCSV` writes for a list of entities. -/
def rowsData : List ThreadInfo → List Char
  | [] => []
  | thread :: rest => (csvRow thread).data ++ rowsData rest

/-! ## The shares of all RUNNING entities of a list -/

/-- The values `baseShare` that `calculateCpuShare` computes over `allThreads`
for the RUNNING entities of the given list, in order. -/
def baseShares (allThreads : List ThreadInfo) : List ThreadInfo → List ℚ
  | [] => []
  | t :: rest =>
    if t.state = ThreadState.RUNNING then baseShare t allThreads :: baseShares allThreads rest
    else baseShares allThreads rest

/-- The values that `calculateCpuShare` returns over `allThreads` for the
RUNNING entities of the given list, in order; the list starts at position
`pos` and `noise i` is the perturbation drawn for the entity at position `i`. -/
def returnedShares (noise : Nat → ℚ) (allThreads : List ThreadInfo) (pos : Nat) :
    List ThreadInfo → List ℚ
  | [] => []
  | t :: rest =>
    if t.state = ThreadState.RUNNING then
      calculateCpuShare t allThreads (noise pos) ::
        returnedShares noise allThreads (pos + 1) rest
    else returnedShares noise allThreads (pos + 1) rest

/-- The number of RUNNING entities of a list. -/
def runningCount (threads : List ThreadInfo) : Nat :=
  (threads.filter (fun t => decide (t.state = ThreadState.RUNNING))).length

/-! ## Lemmas on the sort -/


theorem sortInsert_perm {α : Type} (before : α → α → Bool) (x : α) (l : List α) :
    (sortInsert before x l).Perm (x :: l) := by
  induction l with
  | nil => simp [sortInsert]
  | cons y ys ih =>
    unfold sortInsert
    split
    · exact List.Perm.refl _
    · exact (List.Perm.cons y ih).trans (List.Perm.swap x y ys)

theorem foldl_sortInsert_perm {α : Type} (before : α → α → Bool) (l acc : List α) :
    (l.foldl (fun acc x => sortInsert before x acc) acc).Perm (l ++ acc) := by
  induction l generalizing acc with
  | nil => simp
  | cons x xs ih =>
    simp only [List.foldl_cons, List.cons_append]
    refine (ih _).trans ?_
    refine (List.Perm.append_left xs (sortInsert_perm before x acc)).trans ?_
    exact List.perm_middle

theorem stdSort_perm {α : Type} (before : α → α → Bool) (l : List α) :
    (stdSort before l).Perm l := by
  have h := foldl_sortInsert_perm before l []
  simpa [stdSort] using h

theorem sortInsert_sorted {α : Type} (before : α → α → Bool)
    (hasymm : ∀ a b, before a b = true → before b a = false)
    (hneg : ∀ a b c, before a c = true → before a b = true ∨ before b c = true)
    (x : α) (l : List α) (hl : SortedBy before l) : SortedBy before (sortInsert before x l) := by
  induction l with
  | nil => simp [sortInsert, SortedBy]
  | cons y ys ih =>
    have hy : ∀ z ∈ ys, before z y = false := (List.pairwise_cons.mp hl).1
    have hys : SortedBy before ys := (List.pairwise_cons.mp hl).2
    unfold sortInsert
    split
    · rename_i hxy
      refine List.pairwise_cons.mpr ⟨?_, hl⟩
      intro z hz
      rcases List.mem_cons.mp hz with rfl | hz
      · exact hasymm _ _ hxy
      · cases hzx : before z x with
        | false => rfl
        | true =>
          rcases hneg z y x hzx with h | h
          · rw [hy z hz] at h; exact absurd h (by simp)
          · rw [hasymm _ _ hxy] at h; exact absurd h (by simp)
    · rename_i hxy
      refine List.pairwise_cons.mpr ⟨?_, ih hys⟩
      intro z hz
      rcases List.mem_cons.mp ((sortInsert_perm before x ys).subset hz) with rfl | hz
      · simpa using hxy
      · exact hy z hz

theorem stdSort_sorted {α : Type} (before : α → α → Bool)
    (hasymm : ∀ a b, before a b = true → before b a = false)
    (hneg : ∀ a b c, before a c = true → before a b = true ∨ before b c = true)
    (l : List α) : SortedBy before (stdSort before l) := by
  have key : ∀ (l acc : List α), SortedBy before acc →
      SortedBy before (l.foldl (fun acc x => sortInsert before x acc) acc) := by
    intro l
    induction l with
    | nil => intro acc h; simpa using h
    | cons x xs ih =>
      intro acc h
      simp only [List.foldl_cons]
      exact ih _ (sortInsert_sorted before hasymm hneg x acc h)
  exact key l [] (by simp [SortedBy])

/-- The first element of any arrangement that `std::sort` may produce (a sorted
permutation) has no element of the input that must precede it. -/
theorem head_of_sorted_perm {α : Type} (before : α → α → Bool)
    (hirr : ∀ a, before a a = false) (l s : List α) (hp : s.Perm l)
    (hs : SortedBy before s) (m : α) (hm : s.head? = some m) :
    m ∈ l ∧ ∀ x ∈ l, before x m = false := by
  cases s with
  | nil => simp at hm
  | cons a t =>
    simp only [List.head?_cons, Option.some.injEq] at hm
    subst hm
    refine ⟨hp.subset (List.mem_cons_self _ _), ?_⟩
    intro x hx
    rcases List.mem_cons.mp (hp.symm.subset hx) with rfl | hx
    · exact hirr _
    · exact (List.pairwise_cons.mp hs).1 x hx

theorem nextThreadBefore_irrefl (a : ThreadInfo) : nextThreadBefore a a = false := by
  simp [nextThreadBefore]

theorem nextThreadBefore_asymm (a b : ThreadInfo) (h : nextThreadBefore a b = true) :
    nextThreadBefore b a = false := by
  unfold nextThreadBefore at *
  split at h <;> split <;> simp at * <;> omega

theorem nextThreadBefore_negTrans (a b c : ThreadInfo) (h : nextThreadBefore a c = true) :
    nextThreadBefore a b = true ∨ nextThreadBefore b c = true := by
  unfold nextThreadBefore at *
  split at h <;> split <;> split <;> simp at * <;> omega

/-- What it means for `m` not to be preceded by `x`. -/
theorem nextThreadBefore_false (x m : ThreadInfo) (h : nextThreadBefore x m = false) :
    x.priority.toInt ≤ m.priority.toInt ∧
      (x.priority.toInt = m.priority.toInt → m.executionTime ≤ x.executionTime) := by
  unfold nextThreadBefore at h
  split at h <;> simp at * <;> omega


/-! ## getNextThread -/

/-- The entity that `getNextThread` returns is one of the RUNNING entities of
the list, and the comparator puts no RUNNING entity of the list before it. -/
theorem getNextThread_first (threads : List ThreadInfo)
    (h : ∃ t ∈ threads, t.state = ThreadState.RUNNING) :
    ∃ i m, getNextThread threads = some (i, m) ∧ threads[i]? = some m ∧
      m.state = ThreadState.RUNNING ∧
      ∀ u ∈ threads, u.state = ThreadState.RUNNING → nextThreadBefore u m = false := by
  obtain ⟨t, ht, hrun⟩ := h
  obtain ⟨k, hk⟩ := List.getElem?_of_mem ht
  have hmem : (k, t) ∈ threads.enum.filter (fun p => decide (p.2.state = ThreadState.RUNNING)) := by
    simp [List.mem_filter, List.mk_mem_enum_iff_getElem?, hk, hrun]
  have hne : (threads.enum.filter (fun p => decide (p.2.state = ThreadState.RUNNING))).isEmpty
      = false := by
    cases hl : threads.enum.filter (fun p => decide (p.2.state = ThreadState.RUNNING)) with
    | nil => rw [hl] at hmem; simp at hmem
    | cons a l => rfl
  have hperm := stdSort_perm (fun a b : Nat × ThreadInfo => nextThreadBefore a.2 b.2)
    (threads.enum.filter (fun p => decide (p.2.state = ThreadState.RUNNING)))
  have hsorted := stdSort_sorted (fun a b : Nat × ThreadInfo => nextThreadBefore a.2 b.2)
    (fun a b => nextThreadBefore_asymm a.2 b.2)
    (fun a b c => nextThreadBefore_negTrans a.2 b.2 c.2)
    (threads.enum.filter (fun p => decide (p.2.state = ThreadState.RUNNING)))
  cases hs : stdSort (fun a b : Nat × ThreadInfo => nextThreadBefore a.2 b.2)
      (threads.enum.filter (fun p => decide (p.2.state = ThreadState.RUNNING))) with
  | nil =>
    rw [hs] at hperm
    have := hperm.symm.subset hmem
    simp at this
  | cons m rest =>
    have hhead := head_of_sorted_perm (fun a b : Nat × ThreadInfo => nextThreadBefore a.2 b.2)
      (fun a => nextThreadBefore_irrefl a.2) _ _ hperm hsorted m (by rw [hs]; rfl)
    obtain ⟨hm, hmin⟩ := hhead
    have hm2 := List.mem_filter.mp hm
    refine ⟨m.1, m.2, ?_, ?_, ?_, ?_⟩
    · simp only [getNextThread, hne, hs]
      rfl
    · exact List.mem_enum_iff_getElem?.mp hm2.1
    · simpa using hm2.2
    · intro u hu hur
      obtain ⟨j, hj⟩ := List.getElem?_of_mem hu
      have : (j, u) ∈ threads.enum.filter (fun p => decide (p.2.state = ThreadState.RUNNING)) := by
        simp [List.mem_filter, List.mk_mem_enum_iff_getElem?, hj, hur]
      exact hmin _ this

/-- The general part of the selection rule, with the entity named. -/
theorem getNextThread_best (threads : List ThreadInfo)
    (h : ∃ t ∈ threads, t.state = ThreadState.RUNNING) :
    ∃ i m, getNextThread threads = some (i, m) ∧ threads[i]? = some m ∧
      m.state = ThreadState.RUNNING ∧
      (∀ u ∈ threads, u.state = ThreadState.RUNNING → u.priority.toInt ≤ m.priority.toInt) ∧
      (∀ u ∈ threads, u.state = ThreadState.RUNNING → u.priority = m.priority →
        m.executionTime ≤ u.executionTime) := by
  obtain ⟨i, m, h1, h2, h3, h4⟩ := getNextThread_first threads h
  refine ⟨i, m, h1, h2, h3, ?_, ?_⟩
  · intro u hu hur
    exact (nextThreadBefore_false u m (h4 u hu hur)).1
  · intro u hu hur hp
    exact (nextThreadBefore_false u m (h4 u hu hur)).2 (by rw [hp])

/-- C1: whenever the list holds a RUNNING entity, `getNextThread` returns a
RUNNING entity of the list (by its position) whose priority is the highest
among the RUNNING entities and whose executionTime is the least among the
RUNNING entities of that priority. Over three RUNNING entities with
(id, priority, executionTime) = (1, HIGH, 500), (2, CRITICAL, 100),
(3, HIGH, 100) it returns the one with id 2, and over (1, HIGH, 500),
(3, HIGH, 100) the one with id 3, whatever the other fields are. -/
theorem getNextThread_selects_highest_priority_least_executionTime :
    (∀ threads : List ThreadInfo, (∃ t ∈ threads, t.state = ThreadState.RUNNING) →
      ∃ i m, getNextThread threads = some (i, m) ∧ threads[i]? = some m ∧
        m.state = ThreadState.RUNNING ∧
        (∀ u ∈ threads, u.state = ThreadState.RUNNING → u.priority.toInt ≤ m.priority.toInt) ∧
        (∀ u ∈ threads, u.state = ThreadState.RUNNING → u.priority = m.priority →
          m.executionTime ≤ u.executionTime)) ∧
    (∀ a b c : ThreadInfo,
      a.state = ThreadState.RUNNING → b.state = ThreadState.RUNNING →
      c.state = ThreadState.RUNNING →
      a.id = 1 → a.priority = ThreadPriority.HIGH → a.executionTime = 500 →
      b.id = 2 → b.priority = ThreadPriority.CRITICAL → b.executionTime = 100 →
      c.id = 3 → c.priority = ThreadPriority.HIGH → c.executionTime = 100 →
      (getNextThread [a, b, c]).map (fun p => p.2.id) = some 2) ∧
    (∀ a c : ThreadInfo,
      a.state = ThreadState.RUNNING → c.state = ThreadState.RUNNING →
      a.id = 1 → a.priority = ThreadPriority.HIGH → a.executionTime = 500 →
      c.id = 3 → c.priority = ThreadPriority.HIGH → c.executionTime = 100 →
      (getNextThread [a, c]).map (fun p => p.2.id) = some 3) := by
  refine ⟨getNextThread_best, ?_, ?_⟩
  · intro a b c ha hb hc ia pa ea ib pb eb ic pc ec
    obtain ⟨i, m, h1, h2, _, h4, _⟩ := getNextThread_best [a, b, c] ⟨a, by simp, ha⟩
    have hm : m ∈ [a, b, c] := List.getElem?_mem h2
    have hb4 := h4 b (by simp) hb
    rw [h1]
    simp only [List.mem_cons, List.mem_singleton, List.not_mem_nil, or_false] at hm
    rcases hm with rfl | rfl | rfl
    · rw [pa, pb] at hb4; simp [ThreadPriority.toInt] at hb4
    · simp [ib]
    · rw [pc, pb] at hb4; simp [ThreadPriority.toInt] at hb4
  · intro a c ha hc ia pa ea ic pc ec
    obtain ⟨i, m, h1, h2, _, _, h5⟩ := getNextThread_best [a, c] ⟨a, by simp, ha⟩
    have hm : m ∈ [a, c] := List.getElem?_mem h2
    rw [h1]
    simp only [List.mem_cons, List.mem_singleton, List.not_mem_nil, or_false] at hm
    rcases hm with rfl | rfl
    · have := h5 c (by simp) hc (by rw [pc, pa])
      rw [ea, ec] at this
      omega
    · simp [ic]

/-- The selection rule of C1 applied to the first list of the claim. -/
theorem getNextThread_selects_witness :
    (∃ t ∈ [{ ThreadInfo.new 1 "a" ThreadPriority.HIGH 9000 (-1) 0 50 with executionTime := 500 },
            { ThreadInfo.new 2 "b" ThreadPriority.CRITICAL 9000 (-1) 0 50 with executionTime := 100 },
            { ThreadInfo.new 3 "c" ThreadPriority.HIGH 9000 (-1) 0 50 with executionTime := 100 }],
        t.state = ThreadState.RUNNING) ∧
    (getNextThread
        [{ ThreadInfo.new 1 "a" ThreadPriority.HIGH 9000 (-1) 0 50 with executionTime := 500 },
         { ThreadInfo.new 2 "b" ThreadPriority.CRITICAL 9000 (-1) 0 50 with executionTime := 100 },
         { ThreadInfo.new 3 "c" ThreadPriority.HIGH 9000 (-1) 0 50 with executionTime := 100 }]).map
      (fun p => p.2.id) = some 2 :=
  ⟨⟨_, List.mem_cons_self _ _, rfl⟩,
    getNextThread_selects_highest_priority_least_executionTime.2.1 _ _ _
      rfl rfl rfl rfl rfl rfl rfl rfl rfl rfl rfl rfl⟩


/-! ## calculateCpuShare -/

theorem stdMax_zero_nonneg (x : ℚ) : 0 ≤ stdMax 0 x := by
  unfold stdMax
  split
  · rename_i h; exact le_of_lt h
  · exact le_refl 0

theorem stdMin_hundred_le (x : ℚ) : stdMin 100 x ≤ 100 := by
  unfold stdMin
  split
  · rename_i h; exact le_of_lt h
  · exact le_refl 100

theorem stdMax_zero_le_hundred (x : ℚ) (h : x ≤ 100) : stdMax 0 x ≤ 100 := by
  unfold stdMax
  split
  · exact h
  · norm_num

/-- C2: for every entity, every list of entities (holding the entity or not)
and every value of the random perturbation, the value that
`calculateCpuShare` returns lies in the closed interval from 0 to 100. -/
theorem calculateCpuShare_within_0_100 (thread : ThreadInfo) (allThreads : List ThreadInfo)
    (variance : ℚ) :
    0 ≤ calculateCpuShare thread allThreads variance ∧
      calculateCpuShare thread allThreads variance ≤ 100 := by
  unfold calculateCpuShare
  split
  · norm_num
  · simp only
    split
    · norm_num
    · exact ⟨stdMax_zero_nonneg _, stdMax_zero_le_hundred _ (stdMin_hundred_le _)⟩


/-! ## simulationStep -/

theorem simulationLoop_spec (noise : Nat → ℚ) (todo : List ThreadInfo) :
    ∀ done : List ThreadInfo, ∃ out : List ThreadInfo,
      simulationLoop noise done todo = done ++ out ∧ out.length = todo.length ∧
      ∀ j t, todo[j]? = some t →
        out[j]? = some (tickAt noise (done ++ out.take j ++ todo.drop j) (done.length + j) t) := by
  induction todo with
  | nil =>
    intro done
    exact ⟨[], by simp [simulationLoop], rfl, by simp⟩
  | cons thread rest ih =>
    intro done
    obtain ⟨out, h1, h2, h3⟩ := ih (done ++ [tickAt noise (done ++ thread :: rest) done.length thread])
    refine ⟨tickAt noise (done ++ thread :: rest) done.length thread :: out, ?_, ?_, ?_⟩
    · have hsplit : done ++ tickAt noise (done ++ thread :: rest) done.length thread :: out =
          done ++ [tickAt noise (done ++ thread :: rest) done.length thread] ++ out := by simp
      rw [hsplit, ← h1]
      unfold tickAt
      rw [simulationLoop]
      split <;> rfl
    · simp [h2]
    · intro j t hj
      cases j with
      | zero =>
        simp only [List.getElem?_cons_zero, Option.some.injEq] at hj
        subst hj
        simp
      | succ j =>
        simp only [List.getElem?_cons_succ] at hj
        have := h3 j t hj
        simp only [List.getElem?_cons_succ, List.take_succ_cons, List.drop_succ_cons]
        rw [this]
        simp [Nat.add_assoc, Nat.add_comm 1 j]


theorem simulationStep_length (m : ThreadManager) (noise : Nat → ℚ) :
    (simulationStep m noise).threads.length = m.threads.length := by
  obtain ⟨out, h1, h2, _⟩ := simulationLoop_spec noise m.threads []
  simp [simulationStep, h1, h2]

/-- The entity at position `i` after a tick is the one that was there before,
put through the loop body with the vector as it stood when it was reached:
the entities in front of it already updated, the others not yet. -/
theorem simulationStep_getElem? (m : ThreadManager) (noise : Nat → ℚ) (i : Nat) (t : ThreadInfo)
    (h : m.threads[i]? = some t) :
    (simulationStep m noise).threads[i]? =
      some (tickAt noise ((simulationStep m noise).threads.take i ++ m.threads.drop i) i t) := by
  obtain ⟨out, h1, _, h3⟩ := simulationLoop_spec noise m.threads []
  have := h3 i t h
  simp only [List.nil_append, List.length_nil, Nat.zero_add] at h1 this
  simp only [simulationStep, h1]
  exact this

theorem tickThread_executionTime (t : ThreadInfo) (share : ℚ) :
    (tickThread t share).executionTime = t.executionTime + 1000 := by
  unfold tickThread timeQuantum
  simp only
  split <;> rfl

theorem tickThread_burstTime (t : ThreadInfo) (share : ℚ) :
    (tickThread t share).burstTime = t.burstTime := by
  unfold tickThread
  simp only
  split <;> rfl

theorem tickThread_completed (t : ThreadInfo) (share : ℚ)
    (h : t.executionTime + 1000 ≥ t.burstTime) :
    (tickThread t share).state = ThreadState.COMPLETED ∧ (tickThread t share).cpuUsage = 0 := by
  unfold tickThread timeQuantum
  simp only
  rw [if_pos h]
  exact ⟨rfl, rfl⟩

theorem tickThread_running (t : ThreadInfo) (share : ℚ)
    (h : ¬ t.executionTime + 1000 ≥ t.burstTime) :
    (tickThread t share).state = t.state ∧ (tickThread t share).cpuUsage = share := by
  unfold tickThread timeQuantum
  simp only
  rw [if_neg h]
  exact ⟨rfl, rfl⟩

/-- C3: one call of `simulationStep` keeps the length of the vector and, for
every entity that was RUNNING at the start of the tick, adds exactly 1000 to
its executionTime and leaves its burstTime alone; the entity ends the tick
COMPLETED with cpuUsage 0 if and only if the new executionTime is at least the
burstTime, and otherwise it is still RUNNING and its cpuUsage is the value
that `calculateCpuShare` returned for it (called on the vector as it stood
when the loop reached the entity). -/
theorem simulationStep_running_entity (m : ThreadManager) (noise : Nat → ℚ) :
    (simulationStep m noise).threads.length = m.threads.length ∧
    ∀ (i : Nat) (t : ThreadInfo), m.threads[i]? = some t → t.state = ThreadState.RUNNING →
      ∃ t1, (simulationStep m noise).threads[i]? = some t1 ∧
        t1.executionTime = t.executionTime + 1000 ∧
        t1.burstTime = t.burstTime ∧
        ((t1.state = ThreadState.COMPLETED ∧ t1.cpuUsage = 0) ↔ t1.executionTime ≥ t1.burstTime) ∧
        (¬ t1.executionTime ≥ t1.burstTime →
          t1.state = ThreadState.RUNNING ∧
          t1.cpuUsage = calculateCpuShare t
            ((simulationStep m noise).threads.take i ++ m.threads.drop i) (noise i)) := by
  refine ⟨simulationStep_length m noise, ?_⟩
  intro i t hi hrun
  refine ⟨_, simulationStep_getElem? m noise i t hi, ?_⟩
  simp only [tickAt, hrun, if_true]
  rw [tickThread_executionTime, tickThread_burstTime]
  refine ⟨rfl, rfl, ?_, ?_⟩
  · constructor
    · intro hc
      by_contra hlt
      have hst := hc.1
      rw [(tickThread_running t _ hlt).1, hrun] at hst
      exact absurd hst (by decide)
    · intro hge
      exact tickThread_completed t _ hge
  · intro hlt
    have := tickThread_running t
      (calculateCpuShare t ((simulationStep m noise).threads.take i ++ m.threads.drop i) (noise i))
      hlt
    exact ⟨this.1.trans hrun, this.2⟩


theorem simulationSteps_append (m : ThreadManager) (ns : List (Nat → ℚ)) (n : Nat → ℚ) :
    simulationSteps m (ns ++ [n]) = simulationStep (simulationSteps m ns) n := by
  simp [simulationSteps, List.foldl_append]

theorem afterTicks_tickAt (b : Int) (k : Nat) (t : ThreadInfo) (noise : Nat → ℚ)
    (cur : List ThreadInfo) (pos : Nat) (h : AfterTicks b k t) :
    AfterTicks b (k + 1) (tickAt noise cur pos t) := by
  obtain ⟨hb, he, hc, hr⟩ := h
  by_cases hk : 1000 * (k : Int) ≥ b
  · have hst := (hc hk).1
    have hcpu := (hc hk).2
    have hnot : ¬ t.state = ThreadState.RUNNING := by rw [hst]; decide
    simp only [tickAt, hnot, if_false]
    refine ⟨hb, ?_, fun _ => ⟨hst, hcpu⟩, fun hlt => ?_⟩
    · rw [he]; push_cast; omega
    · exfalso; push_cast at hlt; omega
  · have hst := hr hk
    simp only [tickAt, hst, if_true]
    refine ⟨by rw [tickThread_burstTime, hb], ?_, ?_, ?_⟩
    · rw [tickThread_executionTime, he]; push_cast; omega
    · intro hge
      apply tickThread_completed
      rw [he, hb]; push_cast at hge; omega
    · intro hlt
      have := tickThread_running t (calculateCpuShare t cur (noise pos))
        (by rw [he, hb]; push_cast at hlt; omega)
      rw [this.1, hst]

theorem afterTicks_simulationSteps (b : Int) (i : Nat) (noises : List (Nat → ℚ)) :
    ∀ (m : ThreadManager) (t : ThreadInfo), m.threads[i]? = some t → AfterTicks b 0 t →
      ∃ t1, (simulationSteps m noises).threads[i]? = some t1 ∧ AfterTicks b noises.length t1 := by
  induction noises using List.reverseRecOn with
  | nil =>
    intro m t hi h
    exact ⟨t, hi, h⟩
  | append_singleton ns n ih =>
    intro m t hi h
    obtain ⟨t1, h1, h2⟩ := ih m t hi h
    have hstep := simulationStep_getElem? (simulationSteps m ns) n i t1 h1
    rw [← simulationSteps_append] at hstep
    refine ⟨_, hstep, ?_⟩
    rw [List.length_append, List.length_singleton]
    exact afterTicks_tickAt b _ t1 n _ i h2

theorem getElem?_append_cons_length {α : Type} (pre post : List α) (x : α) :
    (pre ++ x :: post)[pre.length]? = some x := by
  induction pre with
  | nil => simp
  | cons a l ih => simpa using ih

theorem afterTicks_new (id : Int) (name : String) (priority : ThreadPriority) (b : Int)
    (parentId : Int) (now : Nat) (memDraw : ℚ) (hb : 0 < b) :
    AfterTicks b 0 (ThreadInfo.new id name priority b parentId now memDraw) := by
  refine ⟨rfl, ?_, ?_, ?_⟩
  · simp only [ThreadInfo.new]; push_cast; omega
  · intro h; exfalso; push_cast at h; omega
  · intro _; rfl

/-- C4: an entity created with burstTime `b > 0` (the record that
`createThread` appends), standing anywhere in a registry whose other entities
are arbitrary, has after `k` consecutive calls of `simulationStep` the
executionTime `1000 * min(k, ceil(b / 1000))`; it is COMPLETED with cpuUsage 0
exactly when `1000 * k >= b` and RUNNING otherwise. With `b = 2000` it is
RUNNING after the first tick and COMPLETED with cpuUsage 0 after the second. -/
theorem created_entity_after_k_ticks :
    (∀ (pre post : List ThreadInfo) (next id : Int) (name : String) (priority : ThreadPriority)
      (b parentId : Int) (now : Nat) (memDraw : ℚ) (noises : List (Nat → ℚ)), 0 < b →
      ∃ t, (simulationSteps
            { threads := pre ++ ThreadInfo.new id name priority b parentId now memDraw :: post
              nextThreadId := next } noises).threads[pre.length]? = some t ∧
        t.executionTime = 1000 * min (noises.length : Int) ((b + 999) / 1000) ∧
        ((t.state = ThreadState.COMPLETED ∧ t.cpuUsage = 0) ↔ 1000 * (noises.length : Int) ≥ b) ∧
        (¬ 1000 * (noises.length : Int) ≥ b → t.state = ThreadState.RUNNING)) ∧
    (∀ (pre post : List ThreadInfo) (next id : Int) (name : String) (priority : ThreadPriority)
      (parentId : Int) (now : Nat) (memDraw : ℚ) (noise1 noise2 : Nat → ℚ),
      (∃ t, (simulationSteps
            { threads := pre ++ ThreadInfo.new id name priority 2000 parentId now memDraw :: post
              nextThreadId := next } [noise1]).threads[pre.length]? = some t ∧
          t.state = ThreadState.RUNNING) ∧
      (∃ t, (simulationSteps
            { threads := pre ++ ThreadInfo.new id name priority 2000 parentId now memDraw :: post
              nextThreadId := next } [noise1, noise2]).threads[pre.length]? = some t ∧
          t.state = ThreadState.COMPLETED ∧ t.cpuUsage = 0)) := by
  have main : ∀ (pre post : List ThreadInfo) (next id : Int) (name : String)
      (priority : ThreadPriority) (b parentId : Int) (now : Nat) (memDraw : ℚ)
      (noises : List (Nat → ℚ)), 0 < b →
      ∃ t, (simulationSteps
            { threads := pre ++ ThreadInfo.new id name priority b parentId now memDraw :: post
              nextThreadId := next } noises).threads[pre.length]? = some t ∧
        AfterTicks b noises.length t := by
    intro pre post next id name priority b parentId now memDraw noises hb
    exact afterTicks_simulationSteps b pre.length noises _ _
      (getElem?_append_cons_length pre post _)
      (afterTicks_new id name priority b parentId now memDraw hb)
  refine ⟨?_, ?_⟩
  · intro pre post next id name priority b parentId now memDraw noises hb
    obtain ⟨t, h1, -, he, hc, hr⟩ := main pre post next id name priority b parentId now memDraw
      noises hb
    refine ⟨t, h1, he, ⟨fun h => ?_, hc⟩, hr⟩
    by_contra hlt
    have := hr hlt
    rw [h.1] at this
    exact absurd this (by decide)
  · intro pre post next id name priority parentId now memDraw noise1 noise2
    obtain ⟨t, h1, -, -, -, hr⟩ := main pre post next id name priority 2000 parentId now memDraw
      [noise1] (by norm_num)
    obtain ⟨u, g1, -, -, hc, -⟩ := main pre post next id name priority 2000 parentId now memDraw
      [noise1, noise2] (by norm_num)
    exact ⟨⟨t, h1, hr (by simp)⟩, ⟨u, g1, hc (by simp)⟩⟩

/-- The tick count of C4 at a registry of one entity with burstTime 2500 and
three ticks. -/
theorem created_entity_after_k_ticks_witness :
    (0 : Int) < 2500 ∧
    ∃ t, (simulationSteps
          { threads := [] ++ ThreadInfo.new 1 "Thread-1" ThreadPriority.MEDIUM 2500 (-1) 0 50 :: []
            nextThreadId := 2 }
          [fun _ => 0, fun _ => 0, fun _ => 0]).threads[([] : List ThreadInfo).length]? = some t ∧
      t.executionTime =
        1000 * min (([fun _ => 0, fun _ => 0, fun _ => 0] : List (Nat → ℚ)).length : Int)
          ((2500 + 999) / 1000) ∧
      ((t.state = ThreadState.COMPLETED ∧ t.cpuUsage = 0) ↔
        1000 * (([fun _ => 0, fun _ => 0, fun _ => 0] : List (Nat → ℚ)).length : Int) ≥ 2500) ∧
      (¬ 1000 * (([fun _ => 0, fun _ => 0, fun _ => 0] : List (Nat → ℚ)).length : Int) ≥ 2500 →
        t.state = ThreadState.RUNNING) :=
  ⟨by decide, created_entity_after_k_ticks.1 [] [] 2 1 "Thread-1" ThreadPriority.MEDIUM 2500 (-1)
    0 50 [fun _ => 0, fun _ => 0, fun _ => 0] (by decide)⟩

/-- The statement of C3 at a registry of one RUNNING entity. -/
theorem simulationStep_running_entity_witness :
    ((⟨[ThreadInfo.new 1 "a" ThreadPriority.MEDIUM 2000 (-1) 0 50], 2⟩ : ThreadManager).threads[0]?
        = some (ThreadInfo.new 1 "a" ThreadPriority.MEDIUM 2000 (-1) 0 50) ∧
      (ThreadInfo.new 1 "a" ThreadPriority.MEDIUM 2000 (-1) 0 50).state = ThreadState.RUNNING) ∧
    ∃ t1, (simulationStep ⟨[ThreadInfo.new 1 "a" ThreadPriority.MEDIUM 2000 (-1) 0 50], 2⟩
        (fun _ => 0)).threads[0]? = some t1 ∧ t1.executionTime = 1000 ∧ t1.burstTime = 2000 := by
  refine ⟨⟨rfl, rfl⟩, ?_⟩
  obtain ⟨t1, h1, h2, h3, _, _⟩ :=
    (simulationStep_running_entity ⟨[ThreadInfo.new 1 "a" ThreadPriority.MEDIUM 2000 (-1) 0 50], 2⟩
      (fun _ => 0)).2 0 _ rfl rfl
  exact ⟨t1, h1, by simpa [ThreadInfo.new] using h2, by simpa [ThreadInfo.new] using h3⟩


/-! ## createThread -/

/-- C5: every call of `createThread`, with a random burst draw between 10000
and 30000, appends exactly one entity at the end of the vector and leaves the
entities already there as they were; the new entity carries the returned id
and has state RUNNING, executionTime 0 and a burstTime above 0. -/
theorem createThread_appends_running_entity (m : ThreadManager) (name : String)
    (priority : ThreadPriority) (customBurstTime parentId randBurst : Int) (now : Nat)
    (memDraw : ℚ) (hr : 10000 ≤ randBurst ∧ randBurst ≤ 30000) :
    ∃ e, (createThread m name priority customBurstTime parentId randBurst now memDraw).2.threads
        = m.threads ++ [e] ∧
      e.id = (createThread m name priority customBurstTime parentId randBurst now memDraw).1 ∧
      e.state = ThreadState.RUNNING ∧ e.executionTime = 0 ∧ 0 < e.burstTime := by
  refine ⟨_, rfl, rfl, rfl, rfl, ?_⟩
  simp only [ThreadInfo.new]
  split
  · assumption
  · omega

/-- The statement of C5 at the first call on the empty registry, with the
burst time left to the random draw. -/
theorem createThread_appends_running_entity_witness :
    ((10000 : Int) ≤ 12000 ∧ (12000 : Int) ≤ 30000) ∧
    ∃ e, (createThread ThreadManager.init "" ThreadPriority.MEDIUM (-1) (-1) 12000 0 50).2.threads
        = ThreadManager.init.threads ++ [e] ∧
      e.id = (createThread ThreadManager.init "" ThreadPriority.MEDIUM (-1) (-1) 12000 0 50).1 ∧
      e.state = ThreadState.RUNNING ∧ e.executionTime = 0 ∧ 0 < e.burstTime :=
  ⟨by decide, createThread_appends_running_entity ThreadManager.init "" ThreadPriority.MEDIUM
    (-1) (-1) 12000 0 50 (by decide)⟩

/-! ## updateThreadState -/

theorem updateThreadStateLoop_not_found (threadId : Int) (newState : ThreadState)
    (l : List ThreadInfo) (h : ∀ t ∈ l, t.id ≠ threadId) :
    updateThreadStateLoop threadId newState l = (false, l) := by
  induction l with
  | nil => rfl
  | cons a l ih =>
    have ha : ¬ a.id = threadId := h a (List.mem_cons_self _ _)
    have hl := ih (fun t ht => h t (List.mem_cons_of_mem _ ht))
    simp [updateThreadStateLoop, ha, hl]

theorem updateThreadStateLoop_head (threadId : Int) (newState : ThreadState)
    (t : ThreadInfo) (post : List ThreadInfo) (ht : t.id = threadId) :
    updateThreadStateLoop threadId newState (t :: post) = (true, withState t newState :: post) := by
  simp only [updateThreadStateLoop, ht, if_true, withState]
  by_cases hs : newState = ThreadState.STOPPED ∨ newState = ThreadState.COMPLETED
  · simp [hs]
  · simp [hs]

theorem updateThreadStateLoop_found (threadId : Int) (newState : ThreadState)
    (pre : List ThreadInfo) (t : ThreadInfo) (post : List ThreadInfo)
    (hpre : ∀ x ∈ pre, x.id ≠ threadId) (ht : t.id = threadId) :
    updateThreadStateLoop threadId newState (pre ++ t :: post) =
      (true, pre ++ withState t newState :: post) := by
  induction pre with
  | nil => exact updateThreadStateLoop_head threadId newState t post ht
  | cons a l ih =>
    have ha : ¬ a.id = threadId := hpre a (List.mem_cons_self _ _)
    have hl := ih (fun x hx => hpre x (List.mem_cons_of_mem _ hx))
    simp [updateThreadStateLoop, ha, hl]

/-- A list that holds an entity with the id splits at the first such entity. -/
theorem exists_first_with_id (threadId : Int) (l : List ThreadInfo)
    (h : ∃ t ∈ l, t.id = threadId) :
    ∃ pre t post, l = pre ++ t :: post ∧ (∀ x ∈ pre, x.id ≠ threadId) ∧ t.id = threadId := by
  induction l with
  | nil => obtain ⟨t, ht, _⟩ := h; simp at ht
  | cons a l ih =>
    by_cases ha : a.id = threadId
    · exact ⟨[], a, l, rfl, by simp, ha⟩
    · obtain ⟨t, ht, hid⟩ := h
      rcases List.mem_cons.mp ht with rfl | ht
      · exact absurd hid ha
      · obtain ⟨pre, u, post, h1, h2, h3⟩ := ih ⟨t, ht, hid⟩
        refine ⟨a :: pre, u, post, by simp [h1], ?_, h3⟩
        intro x hx
        rcases List.mem_cons.mp hx with rfl | hx
        · exact ha
        · exact h2 x hx

/-- C8: `updateThreadState(id, s)` returns true if and only if the registry
holds an entity with that id. When it returns false the registry is unchanged.
When it returns true, the first entity with that id (the only one when ids are
distinct) gets the state `s`, whatever its state was; its cpuUsage becomes 0 if
`s` is STOPPED or COMPLETED and is unchanged otherwise; its other fields, all
other entities, their order and the id counter are unchanged. -/
theorem updateThreadState_spec (m : ThreadManager) (threadId : Int) (newState : ThreadState) :
    ((updateThreadState m threadId newState).1 = true ↔ ∃ t ∈ m.threads, t.id = threadId) ∧
    ((updateThreadState m threadId newState).1 = false →
      (updateThreadState m threadId newState).2 = m) ∧
    ((updateThreadState m threadId newState).1 = true →
      ∃ pre t post, m.threads = pre ++ t :: post ∧ (∀ x ∈ pre, x.id ≠ threadId) ∧
        t.id = threadId ∧
        (updateThreadState m threadId newState).2 =
          { threads := pre ++
              { t with
                state := newState
                cpuUsage :=
                  if newState = ThreadState.STOPPED ∨ newState = ThreadState.COMPLETED then 0
                  else t.cpuUsage } :: post
            nextThreadId := m.nextThreadId }) := by
  by_cases h : ∃ t ∈ m.threads, t.id = threadId
  · obtain ⟨pre, t, post, h1, h2, h3⟩ := exists_first_with_id threadId m.threads h
    have hloop := updateThreadStateLoop_found threadId newState pre t post h2 h3
    have hret : (updateThreadState m threadId newState).1 = true := by
      simp [updateThreadState, h1, hloop]
    refine ⟨⟨fun _ => h, fun _ => hret⟩, ?_, ?_⟩
    · intro hf; rw [hret] at hf; exact absurd hf (by decide)
    · intro _
      refine ⟨pre, t, post, h1, h2, h3, ?_⟩
      simp [updateThreadState, h1, hloop, withState]
  · have hall : ∀ t ∈ m.threads, t.id ≠ threadId := fun t ht hid => h ⟨t, ht, hid⟩
    have hloop := updateThreadStateLoop_not_found threadId newState m.threads hall
    have hret : (updateThreadState m threadId newState).1 = false := by
      simp [updateThreadState, hloop]
    refine ⟨⟨fun ht => ?_, fun hex => absurd hex h⟩, ?_, ?_⟩
    · rw [hret] at ht; exact absurd ht (by decide)
    · intro _; simp [updateThreadState, hloop]
    · intro ht; rw [hret] at ht; exact absurd ht (by decide)


/-! ## stopAllThreads -/

/-- C9: `stopAllThreads` keeps the number and the order of the entities and the
id counter. An entity that was COMPLETED is unchanged; every other entity is
STOPPED with cpuUsage 0 afterwards and keeps all its other fields. -/
theorem stopAllThreads_spec (m : ThreadManager) :
    (stopAllThreads m).threads.length = m.threads.length ∧
    (stopAllThreads m).nextThreadId = m.nextThreadId ∧
    ∀ (i : Nat) (t : ThreadInfo), m.threads[i]? = some t →
      (t.state = ThreadState.COMPLETED → (stopAllThreads m).threads[i]? = some t) ∧
      (t.state ≠ ThreadState.COMPLETED →
        (stopAllThreads m).threads[i]? =
          some { t with state := ThreadState.STOPPED, cpuUsage := 0 }) := by
  refine ⟨by simp [stopAllThreads], rfl, ?_⟩
  intro i t hi
  constructor
  · intro hc
    simp [stopAllThreads, List.getElem?_map, hi, hc]
  · intro hc
    simp [stopAllThreads, List.getElem?_map, hi, hc]

/-- The statement of C9 at a registry with a COMPLETED and a PAUSED entity. -/
theorem stopAllThreads_spec_witness :
    (stopAllThreads
      ⟨[{ ThreadInfo.new 1 "a" ThreadPriority.LOW 1000 (-1) 0 50 with
            state := ThreadState.COMPLETED, executionTime := 1000 },
        { ThreadInfo.new 2 "b" ThreadPriority.HIGH 5000 (-1) 0 60 with
            state := ThreadState.PAUSED, cpuUsage := 40 }], 3⟩).threads =
      [{ ThreadInfo.new 1 "a" ThreadPriority.LOW 1000 (-1) 0 50 with
            state := ThreadState.COMPLETED, executionTime := 1000 },
        { ThreadInfo.new 2 "b" ThreadPriority.HIGH 5000 (-1) 0 60 with
            state := ThreadState.STOPPED, cpuUsage := 0 }] := by
  have h := stopAllThreads_spec
    ⟨[{ ThreadInfo.new 1 "a" ThreadPriority.LOW 1000 (-1) 0 50 with
          state := ThreadState.COMPLETED, executionTime := 1000 },
      { ThreadInfo.new 2 "b" ThreadPriority.HIGH 5000 (-1) 0 60 with
          state := ThreadState.PAUSED, cpuUsage := 40 }], 3⟩
  have h0 := (h.2.2 0 _ rfl).1 rfl
  have h1 := (h.2.2 1 _ rfl).2 (by decide)
  apply List.ext_getElem?
  intro n
  match n with
  | 0 => rw [h0]; rfl
  | 1 => rw [h1]; rfl
  | n + 2 =>
    have hlen := h.1
    rw [List.getElem?_eq_none (by rw [hlen]; simp), List.getElem?_eq_none (by simp)]

/-! ## deleteThread -/

theorem findIf_none (p : ThreadInfo → Bool) (l : List ThreadInfo) (h : ∀ x ∈ l, p x = false) :
    findIf p l = none := by
  induction l with
  | nil => rfl
  | cons a l ih =>
    have ha : p a = false := h a (List.mem_cons_self _ _)
    simp [findIf, ha, ih (fun x hx => h x (List.mem_cons_of_mem _ hx))]

theorem findIf_first (p : ThreadInfo → Bool) (pre : List ThreadInfo) (t : ThreadInfo)
    (post : List ThreadInfo) (hpre : ∀ x ∈ pre, p x = false) (ht : p t = true) :
    findIf p (pre ++ t :: post) = some pre.length := by
  induction pre with
  | nil => simp [findIf, ht]
  | cons a l ih =>
    have ha : p a = false := hpre a (List.mem_cons_self _ _)
    simp [findIf, ha, ih (fun x hx => hpre x (List.mem_cons_of_mem _ hx))]

theorem eraseIdx_append_cons_length {α : Type} (pre post : List α) (x : α) :
    (pre ++ x :: post).eraseIdx pre.length = pre ++ post := by
  induction pre with
  | nil => simp
  | cons a l ih => simpa using ih

theorem deleteThread_not_found (m : ThreadManager) (threadId : Int)
    (h : ∀ t ∈ m.threads, t.id ≠ threadId) : deleteThread m threadId = (false, m) := by
  have hf : findIf (fun t => decide (t.id = threadId)) m.threads = none :=
    findIf_none _ _ (fun x hx => by simpa using h x hx)
  simp [deleteThread, hf]

theorem deleteThread_found (m : ThreadManager) (threadId : Int) (pre : List ThreadInfo)
    (t : ThreadInfo) (post : List ThreadInfo) (hm : m.threads = pre ++ t :: post)
    (hpre : ∀ x ∈ pre, x.id ≠ threadId) (ht : t.id = threadId) :
    deleteThread m threadId = (true, { threads := pre ++ post, nextThreadId := m.nextThreadId }) := by
  have hf : findIf (fun t => decide (t.id = threadId)) m.threads = some pre.length := by
    rw [hm]
    exact findIf_first _ pre t post (fun x hx => by simpa using hpre x hx) (by simpa using ht)
  simp only [deleteThread, hf]
  rw [hm, eraseIdx_append_cons_length]


/-! ## What the operations keep -/

theorem tickAt_map {β : Type} (f : ThreadInfo → β)
    (hf : ∀ (t : ThreadInfo) (c : ℚ) (e : Int) (s : ThreadState),
      f { t with cpuUsage := c, executionTime := e, state := s } = f t)
    (noise : Nat → ℚ) (cur : List ThreadInfo) (pos : Nat) (t : ThreadInfo) :
    f (tickAt noise cur pos t) = f t := by
  unfold tickAt tickThread
  split
  · simp only
    split
    · exact hf t 0 _ ThreadState.COMPLETED
    · exact hf t _ _ t.state
  · rfl

theorem simulationStep_map {β : Type} (f : ThreadInfo → β)
    (hf : ∀ (t : ThreadInfo) (c : ℚ) (e : Int) (s : ThreadState),
      f { t with cpuUsage := c, executionTime := e, state := s } = f t)
    (m : ThreadManager) (noise : Nat → ℚ) :
    (simulationStep m noise).threads.map f = m.threads.map f := by
  apply List.ext_getElem?
  intro n
  rw [List.getElem?_map, List.getElem?_map]
  cases h : m.threads[n]? with
  | none =>
    have hn : m.threads.length ≤ n := List.getElem?_eq_none_iff.mp h
    rw [List.getElem?_eq_none (by rw [simulationStep_length]; exact hn)]
  | some t =>
    rw [simulationStep_getElem? m noise n t h]
    simp [tickAt_map f hf]

theorem simulationStep_mem (m : ThreadManager) (noise : Nat → ℚ) (t1 : ThreadInfo)
    (h : t1 ∈ (simulationStep m noise).threads) :
    ∃ i t cur, m.threads[i]? = some t ∧ t1 = tickAt noise cur i t := by
  obtain ⟨i, hi⟩ := List.getElem?_of_mem h
  have hlt : i < m.threads.length := by
    have := (List.getElem?_eq_some_iff.mp hi).1
    rwa [simulationStep_length] at this
  have hget : m.threads[i]? = some (m.threads[i]) := List.getElem?_eq_getElem hlt
  have := simulationStep_getElem? m noise i _ hget
  rw [hi] at this
  exact ⟨i, _, _, hget, Option.some.inj this⟩

theorem updateThreadStateLoop_cases (threadId : Int) (newState : ThreadState)
    (l : List ThreadInfo) :
    updateThreadStateLoop threadId newState l = (false, l) ∨
    ∃ pre t post, l = pre ++ t :: post ∧ (∀ x ∈ pre, x.id ≠ threadId) ∧ t.id = threadId ∧
      updateThreadStateLoop threadId newState l = (true, pre ++ withState t newState :: post) := by
  by_cases h : ∃ t ∈ l, t.id = threadId
  · obtain ⟨pre, t, post, h1, h2, h3⟩ := exists_first_with_id threadId l h
    right
    exact ⟨pre, t, post, h1, h2, h3, by rw [h1]; exact updateThreadStateLoop_found _ _ _ _ _ h2 h3⟩
  · left
    exact updateThreadStateLoop_not_found _ _ _ (fun t ht hid => h ⟨t, ht, hid⟩)

theorem updateThreadState_map {β : Type} (f : ThreadInfo → β)
    (hf : ∀ (t : ThreadInfo) (c : ℚ) (s : ThreadState),
      f { t with cpuUsage := c, state := s } = f t)
    (m : ThreadManager) (threadId : Int) (newState : ThreadState) :
    (updateThreadState m threadId newState).2.threads.map f = m.threads.map f := by
  rcases updateThreadStateLoop_cases threadId newState m.threads with h | ⟨pre, t, post, h1, _, _, h4⟩
  · simp [updateThreadState, h]
  · simp only [updateThreadState, h4]
    rw [h1]
    simp only [List.map_append, List.map_cons]
    rw [show f (withState t newState) = f t from hf t _ newState]

theorem updateThreadPriorityLoop_map {β : Type} (f : ThreadInfo → β)
    (hf : ∀ (t : ThreadInfo) (p : ThreadPriority), f { t with priority := p } = f t)
    (threadId : Int) (newPriority : ThreadPriority) (l : List ThreadInfo) :
    (updateThreadPriorityLoop threadId newPriority l).2.map f = l.map f := by
  induction l with
  | nil => rfl
  | cons a l ih =>
    unfold updateThreadPriorityLoop
    split
    · simp [hf]
    · simp [ih]

theorem updateThreadPriority_map {β : Type} (f : ThreadInfo → β)
    (hf : ∀ (t : ThreadInfo) (p : ThreadPriority), f { t with priority := p } = f t)
    (m : ThreadManager) (threadId : Int) (newPriority : ThreadPriority) :
    (updateThreadPriority m threadId newPriority).2.threads.map f = m.threads.map f := by
  simpa [updateThreadPriority] using updateThreadPriorityLoop_map f hf threadId newPriority m.threads

theorem pauseAllThreads_map {β : Type} (f : ThreadInfo → β)
    (hf : ∀ (t : ThreadInfo) (s : ThreadState), f { t with state := s } = f t)
    (m : ThreadManager) : (pauseAllThreads m).threads.map f = m.threads.map f := by
  simp only [pauseAllThreads, List.map_map]
  apply List.map_congr_left
  intro t _
  simp only [Function.comp]
  split
  · exact hf t _
  · rfl

theorem resumeAllThreads_map {β : Type} (f : ThreadInfo → β)
    (hf : ∀ (t : ThreadInfo) (s : ThreadState), f { t with state := s } = f t)
    (m : ThreadManager) : (resumeAllThreads m).threads.map f = m.threads.map f := by
  simp only [resumeAllThreads, List.map_map]
  apply List.map_congr_left
  intro t _
  simp only [Function.comp]
  split
  · exact hf t _
  · rfl

theorem stopAllThreads_map {β : Type} (f : ThreadInfo → β)
    (hf : ∀ (t : ThreadInfo) (c : ℚ) (s : ThreadState),
      f { t with cpuUsage := c, state := s } = f t)
    (m : ThreadManager) : (stopAllThreads m).threads.map f = m.threads.map f := by
  simp only [stopAllThreads, List.map_map]
  apply List.map_congr_left
  intro t _
  simp only [Function.comp]
  split
  · exact hf t 0 ThreadState.STOPPED
  · rfl


/-! ## Ids of the live entities -/

theorem idsFresh_of_same_ids (m m1 : ThreadManager)
    (hids : m1.threads.map (fun t => t.id) = m.threads.map (fun t => t.id))
    (hnext : m1.nextThreadId = m.nextThreadId) (h : IdsFresh m) : IdsFresh m1 := by
  unfold IdsFresh at *
  rw [hids, hnext]
  exact h

theorem idsFresh_createThread (m : ThreadManager) (name : String) (priority : ThreadPriority)
    (customBurstTime parentId randBurst : Int) (now : Nat) (memDraw : ℚ) (h : IdsFresh m) :
    IdsFresh (createThread m name priority customBurstTime parentId randBurst now memDraw).2 := by
  obtain ⟨h1, h2⟩ := h
  unfold IdsFresh
  simp only [createThread, ThreadInfo.new, List.map_append, List.map_cons, List.map_nil]
  constructor
  · rw [List.nodup_append]
    refine ⟨h1, List.nodup_singleton _, ?_⟩
    intro x hx hx1
    rw [List.mem_singleton] at hx1
    have := h2 x hx
    omega
  · intro x hx
    rcases List.mem_append.mp hx with hx | hx
    · have := h2 x hx
      omega
    · rw [List.mem_singleton] at hx
      omega

theorem deleteThread_cases (m : ThreadManager) (threadId : Int) :
    deleteThread m threadId = (false, m) ∨
    ∃ pre t post, m.threads = pre ++ t :: post ∧ (∀ x ∈ pre, x.id ≠ threadId) ∧ t.id = threadId ∧
      deleteThread m threadId =
        (true, { threads := pre ++ post, nextThreadId := m.nextThreadId }) := by
  by_cases h : ∃ t ∈ m.threads, t.id = threadId
  · obtain ⟨pre, t, post, h1, h2, h3⟩ := exists_first_with_id threadId m.threads h
    right
    exact ⟨pre, t, post, h1, h2, h3, deleteThread_found m threadId pre t post h1 h2 h3⟩
  · left
    exact deleteThread_not_found m threadId (fun t ht hid => h ⟨t, ht, hid⟩)

theorem idsFresh_deleteThread (m : ThreadManager) (threadId : Int) (h : IdsFresh m) :
    IdsFresh (deleteThread m threadId).2 := by
  rcases deleteThread_cases m threadId with hd | ⟨pre, t, post, h1, _, _, hd⟩
  · rw [hd]; exact h
  · rw [hd]
    obtain ⟨hn, hlt⟩ := h
    rw [h1] at hn hlt
    simp only [List.map_append, List.map_cons] at hn hlt
    unfold IdsFresh
    simp only [List.map_append]
    constructor
    · exact hn.sublist
        (List.Sublist.append (List.Sublist.refl _) (List.sublist_cons_self _ _))
    · intro x hx
      apply hlt x
      rcases List.mem_append.mp hx with hx | hx
      · exact List.mem_append_left _ hx
      · exact List.mem_append_right _ (List.mem_cons_of_mem _ hx)

theorem updateThreadState_nextThreadId (m : ThreadManager) (threadId : Int)
    (newState : ThreadState) :
    (updateThreadState m threadId newState).2.nextThreadId = m.nextThreadId := rfl

theorem idsFresh_applyOp (m : ThreadManager) (op : Op) (h : IdsFresh m) :
    IdsFresh (applyOp m op) := by
  cases op with
  | createThread name priority customBurstTime parentId randBurst now memDraw =>
    exact idsFresh_createThread m name priority customBurstTime parentId randBurst now memDraw h
  | deleteThread threadId => exact idsFresh_deleteThread m threadId h
  | updateThreadState threadId newState =>
    exact idsFresh_of_same_ids m _
      (updateThreadState_map (fun t : ThreadInfo => t.id) (fun _ _ _ => rfl) m threadId newState) rfl h
  | pauseThread threadId =>
    exact idsFresh_of_same_ids m _
      (updateThreadState_map (fun t : ThreadInfo => t.id) (fun _ _ _ => rfl) m threadId ThreadState.PAUSED) rfl h
  | resumeThread threadId =>
    exact idsFresh_of_same_ids m _
      (updateThreadState_map (fun t : ThreadInfo => t.id) (fun _ _ _ => rfl) m threadId ThreadState.RUNNING) rfl h
  | stopThread threadId =>
    exact idsFresh_of_same_ids m _
      (updateThreadState_map (fun t : ThreadInfo => t.id) (fun _ _ _ => rfl) m threadId ThreadState.STOPPED) rfl h
  | updateThreadPriority threadId newPriority =>
    exact idsFresh_of_same_ids m _
      (updateThreadPriority_map (fun t : ThreadInfo => t.id) (fun _ _ => rfl) m threadId newPriority) rfl h
  | pauseAllThreads =>
    exact idsFresh_of_same_ids m _ (pauseAllThreads_map (fun t : ThreadInfo => t.id) (fun _ _ => rfl) m) rfl h
  | resumeAllThreads =>
    exact idsFresh_of_same_ids m _ (resumeAllThreads_map (fun t : ThreadInfo => t.id) (fun _ _ => rfl) m) rfl h
  | stopAllThreads =>
    exact idsFresh_of_same_ids m _ (stopAllThreads_map (fun t : ThreadInfo => t.id) (fun _ _ _ => rfl) m) rfl h
  | simulationStep noise =>
    exact idsFresh_of_same_ids m _ (simulationStep_map (fun t : ThreadInfo => t.id) (fun _ _ _ _ => rfl) m noise) rfl h

/-- An invariant of the operations that holds in the empty registry holds in
every registry that the public operations reach. -/
theorem runOps_induction (P : ThreadManager → Prop) (h0 : P ThreadManager.init)
    (hstep : ∀ m op, P m → P (applyOp m op)) (ops : List Op) : P (runOps ops) := by
  induction ops using List.reverseRecOn with
  | nil => exact h0
  | append_singleton ops op ih =>
    have : runOps (ops ++ [op]) = applyOp (runOps ops) op := by
      simp [runOps, List.foldl_append]
    rw [this]
    exact hstep _ _ ih

theorem idsFresh_runOps (ops : List Op) : IdsFresh (runOps ops) := by
  apply runOps_induction IdsFresh
  · constructor
    · exact List.nodup_nil
    · intro x hx
      simp [ThreadManager.init] at hx
  · exact idsFresh_applyOp

/-- C10: `deleteThread(id)` returns true if and only if the registry holds an
entity with that id. When it returns false the registry, and so its size, is
unchanged. When it returns true the first entity with that id is removed: the
size goes down by exactly one and all other entities remain, unmodified and in
their order, whatever their parentId is. In a registry reached through the
public operations, where ids are distinct, no remaining entity has the id. -/
theorem deleteThread_spec :
    (∀ (m : ThreadManager) (threadId : Int),
      ((deleteThread m threadId).1 = true ↔ ∃ t ∈ m.threads, t.id = threadId) ∧
      ((deleteThread m threadId).1 = false → (deleteThread m threadId).2 = m) ∧
      ((deleteThread m threadId).1 = true →
        (deleteThread m threadId).2.threads.length + 1 = m.threads.length ∧
        ∃ pre t post, m.threads = pre ++ t :: post ∧ (∀ x ∈ pre, x.id ≠ threadId) ∧
          t.id = threadId ∧
          (deleteThread m threadId).2 =
            { threads := pre ++ post, nextThreadId := m.nextThreadId })) ∧
    (∀ (ops : List Op) (threadId : Int), (deleteThread (runOps ops) threadId).1 = true →
      ∀ t ∈ (deleteThread (runOps ops) threadId).2.threads, t.id ≠ threadId) := by
  constructor
  · intro m threadId
    rcases deleteThread_cases m threadId with hd | ⟨pre, t, post, h1, h2, h3, hd⟩
    · have hnone : ¬ ∃ t ∈ m.threads, t.id = threadId := by
        rintro ⟨t, ht, hid⟩
        obtain ⟨pre, u, post, g1, g2, g3⟩ := exists_first_with_id threadId m.threads ⟨t, ht, hid⟩
        have := deleteThread_found m threadId pre u post g1 g2 g3
        rw [hd] at this
        exact absurd (congrArg Prod.fst this) (by simp)
      rw [hd]
      refine ⟨⟨fun hf => absurd hf (by simp), fun hex => absurd hex hnone⟩, fun _ => rfl, ?_⟩
      intro hf
      exact absurd hf (by simp)
    · rw [hd]
      refine ⟨⟨fun _ => ⟨t, by rw [h1]; simp, h3⟩, fun _ => rfl⟩, ?_, ?_⟩
      · intro hf; exact absurd hf (by simp)
      · intro _
        refine ⟨by rw [h1]; simp; omega, pre, t, post, h1, h2, h3, rfl⟩
  · intro ops threadId _
    rcases deleteThread_cases (runOps ops) threadId with hd | ⟨pre, t, post, h1, h2, h3, hd⟩
    · rw [hd]
      intro u hu hid
      obtain ⟨pre, v, post, g1, g2, g3⟩ :=
        exists_first_with_id threadId (runOps ops).threads ⟨u, hu, hid⟩
      have := deleteThread_found (runOps ops) threadId pre v post g1 g2 g3
      rw [hd] at this
      exact absurd (congrArg Prod.fst this) (by simp)
    · rw [hd]
      intro u hu hid
      have hn := (idsFresh_runOps ops).1
      rw [h1] at hn
      simp only [List.map_append, List.map_cons] at hn
      rcases List.mem_append.mp hu with hu | hu
      · exact h2 u hu hid
      · have hnd := (List.nodup_append.mp hn).2.1
        have hnot := (List.nodup_cons.mp hnd).1
        apply hnot
        rw [h3, ← hid]
        exact List.mem_map_of_mem _ hu


/-- The statement of C10 at a reached registry with two entities. -/
theorem deleteThread_spec_witness :
    (deleteThread (runOps [Op.createThread "a" ThreadPriority.LOW 3000 (-1) 12000 0 50,
        Op.createThread "b" ThreadPriority.HIGH 4000 1 12000 0 60]) 1).1 = true ∧
    ∀ t ∈ (deleteThread (runOps [Op.createThread "a" ThreadPriority.LOW 3000 (-1) 12000 0 50,
        Op.createThread "b" ThreadPriority.HIGH 4000 1 12000 0 60]) 1).2.threads, t.id ≠ 1 :=
  ⟨rfl, deleteThread_spec.2 [Op.createThread "a" ThreadPriority.LOW 3000 (-1) 12000 0 50,
        Op.createThread "b" ThreadPriority.HIGH 4000 1 12000 0 60] 1 rfl⟩

/-! ## cpuUsage of the entities that do not run -/

theorem stoppedZero_of_same (t t1 : ThreadInfo) (hs : t1.state = t.state)
    (hc : t1.cpuUsage = t.cpuUsage) (h : StoppedZero t) : StoppedZero t1 := by
  unfold StoppedZero at *
  rw [hs, hc]
  exact h

theorem stoppedZero_withState (t : ThreadInfo) (newState : ThreadState) :
    StoppedZero (withState t newState) := by
  unfold StoppedZero withState
  intro h
  simp only at h ⊢
  rw [if_pos (Or.symm h)]

theorem stoppedZero_tickAt (noise : Nat → ℚ) (cur : List ThreadInfo) (pos : Nat)
    (t : ThreadInfo) (h : StoppedZero t) : StoppedZero (tickAt noise cur pos t) := by
  unfold tickAt
  split
  · rename_i hrun
    by_cases hge : t.executionTime + 1000 ≥ t.burstTime
    · intro _
      exact (tickThread_completed t _ hge).2
    · intro hst
      rw [(tickThread_running t _ hge).1, hrun] at hst
      rcases hst with hst | hst <;> exact absurd hst (by decide)
  · exact h

theorem stoppedZero_of_map_eq (l l1 : List ThreadInfo)
    (hmap : l1.map (fun t => (t.state, t.cpuUsage)) = l.map (fun t => (t.state, t.cpuUsage)))
    (h : ∀ t ∈ l, StoppedZero t) : ∀ t ∈ l1, StoppedZero t := by
  intro t1 ht1
  have hmem : (t1.state, t1.cpuUsage) ∈ l1.map (fun t => (t.state, t.cpuUsage)) :=
    List.mem_map_of_mem _ ht1
  rw [hmap] at hmem
  obtain ⟨t, ht, heq⟩ := List.mem_map.mp hmem
  simp only [Prod.mk.injEq] at heq
  exact stoppedZero_of_same t t1 heq.1.symm heq.2.symm (h t ht)

theorem stoppedZero_updateThreadState (m : ThreadManager) (threadId : Int)
    (newState : ThreadState) (h : ∀ t ∈ m.threads, StoppedZero t) :
    ∀ t ∈ (updateThreadState m threadId newState).2.threads, StoppedZero t := by
  rcases updateThreadStateLoop_cases threadId newState m.threads with
    hl | ⟨pre, u, post, h1, _, _, hl⟩
  · simpa [updateThreadState, hl] using h
  · simp only [updateThreadState, hl]
    rw [h1] at h
    intro t ht
    rcases List.mem_append.mp ht with ht | ht
    · exact h t (List.mem_append_left _ ht)
    · rcases List.mem_cons.mp ht with rfl | ht
      · exact stoppedZero_withState u newState
      · exact h t (List.mem_append_right _ (List.mem_cons_of_mem _ ht))

theorem stoppedZero_applyOp (m : ThreadManager) (op : Op)
    (h : ∀ t ∈ m.threads, StoppedZero t) : ∀ t ∈ (applyOp m op).threads, StoppedZero t := by
  cases op with
  | createThread name priority customBurstTime parentId randBurst now memDraw =>
    intro t ht
    simp only [applyOp, createThread, List.mem_append, List.mem_singleton] at ht
    rcases ht with ht | rfl
    · exact h t ht
    · intro hst
      rcases hst with hst | hst <;> exact absurd hst (by simp [ThreadInfo.new])
  | deleteThread threadId =>
    rcases deleteThread_cases m threadId with hd | ⟨pre, u, post, h1, _, _, hd⟩
    · simpa [applyOp, hd] using h
    · simp only [applyOp, hd]
      rw [h1] at h
      intro t ht
      rcases List.mem_append.mp ht with ht | ht
      · exact h t (List.mem_append_left _ ht)
      · exact h t (List.mem_append_right _ (List.mem_cons_of_mem _ ht))
  | updateThreadState threadId newState =>
    exact stoppedZero_updateThreadState m threadId newState h
  | pauseThread threadId => exact stoppedZero_updateThreadState m threadId _ h
  | resumeThread threadId => exact stoppedZero_updateThreadState m threadId _ h
  | stopThread threadId => exact stoppedZero_updateThreadState m threadId _ h
  | updateThreadPriority threadId newPriority =>
    exact stoppedZero_of_map_eq _ _
      (updateThreadPriority_map (fun t : ThreadInfo => (t.state, t.cpuUsage)) (fun _ _ => rfl)
        m threadId newPriority) h
  | pauseAllThreads =>
    intro t ht
    simp only [applyOp, pauseAllThreads, List.mem_map] at ht
    obtain ⟨u, hu, rfl⟩ := ht
    split
    · intro hst
      rcases hst with hst | hst <;> exact absurd hst (by simp)
    · exact h u hu
  | resumeAllThreads =>
    intro t ht
    simp only [applyOp, resumeAllThreads, List.mem_map] at ht
    obtain ⟨u, hu, rfl⟩ := ht
    split
    · intro hst
      rcases hst with hst | hst <;> exact absurd hst (by simp)
    · exact h u hu
  | stopAllThreads =>
    intro t ht
    simp only [applyOp, stopAllThreads, List.mem_map] at ht
    obtain ⟨u, hu, rfl⟩ := ht
    split
    · intro _; rfl
    · exact h u hu
  | simulationStep noise =>
    intro t ht
    obtain ⟨i, u, cur, hu, rfl⟩ := simulationStep_mem m noise t ht
    exact stoppedZero_tickAt noise cur i u (h u (List.getElem?_mem hu))

theorem stoppedZero_runOps (ops : List Op) : ∀ t ∈ (runOps ops).threads, StoppedZero t := by
  apply runOps_induction (fun m => ∀ t ∈ m.threads, StoppedZero t)
  · intro t ht
    simp [ThreadManager.init] at ht
  · exact stoppedZero_applyOp

/-- C6: in every registry reached from the empty one by any sequence of the
public operations, every entity whose state is COMPLETED or STOPPED has
cpuUsage 0. -/
theorem completed_or_stopped_has_zero_cpuUsage (ops : List Op) (t : ThreadInfo) :
    t ∈ (runOps ops).threads →
    t.state = ThreadState.COMPLETED ∨ t.state = ThreadState.STOPPED → t.cpuUsage = 0 :=
  fun ht => stoppedZero_runOps ops t ht


theorem isEmpty_a : "a".isEmpty = false := by decide

/-- The invariant of C6 at the registry reached by creating an entity, ticking
once and stopping the entity. -/
theorem completed_or_stopped_has_zero_cpuUsage_witness :
    ({ ThreadInfo.new 1 "a" ThreadPriority.MEDIUM 5000 (-1) 0 50 with
        state := ThreadState.STOPPED, cpuUsage := 0, executionTime := 1000 } : ThreadInfo) ∈
      (runOps [Op.createThread "a" ThreadPriority.MEDIUM 5000 (-1) 12000 0 50,
        Op.simulationStep (fun _ => 0), Op.stopThread 1]).threads ∧
    ({ ThreadInfo.new 1 "a" ThreadPriority.MEDIUM 5000 (-1) 0 50 with
        state := ThreadState.STOPPED, cpuUsage := 0, executionTime := 1000 } : ThreadInfo).cpuUsage
      = 0 := by
  have hmem : ({ ThreadInfo.new 1 "a" ThreadPriority.MEDIUM 5000 (-1) 0 50 with
        state := ThreadState.STOPPED, cpuUsage := 0, executionTime := 1000 } : ThreadInfo) ∈
      (runOps [Op.createThread "a" ThreadPriority.MEDIUM 5000 (-1) 12000 0 50,
        Op.simulationStep (fun _ => 0), Op.stopThread 1]).threads := by
    simp [runOps, applyOp, createThread, simulationStep, simulationLoop, tickThread,
      calculateCpuShare, totalWeight, priorityWeights, stdMax, stdMin, stopThread,
      updateThreadState, updateThreadStateLoop, ThreadInfo.new, ThreadManager.init,
      timeQuantum, isEmpty_a]
  exact ⟨hmem, completed_or_stopped_has_zero_cpuUsage _ _ hmem (Or.inr rfl)⟩

/-- C7, as stated, fails: after `createThread`, one `simulationStep` (drawn
perturbation 0) and `pauseAllThreads` the only entity is PAUSED and its
cpuUsage is still the share of the tick, 100. -/
theorem paused_entity_keeps_cpuUsage :
    (runOps [Op.createThread "a" ThreadPriority.MEDIUM 5000 (-1) 12000 0 50,
        Op.simulationStep (fun _ => 0), Op.pauseAllThreads]).threads =
      [{ ThreadInfo.new 1 "a" ThreadPriority.MEDIUM 5000 (-1) 0 50 with
          state := ThreadState.PAUSED, cpuUsage := 100, executionTime := 1000 }] ∧
    ¬ (∀ (ops : List Op) (t : ThreadInfo), t ∈ (runOps ops).threads →
        t.state ≠ ThreadState.RUNNING → t.cpuUsage = 0) := by
  have hrun : (runOps [Op.createThread "a" ThreadPriority.MEDIUM 5000 (-1) 12000 0 50,
        Op.simulationStep (fun _ => 0), Op.pauseAllThreads]).threads =
      [{ ThreadInfo.new 1 "a" ThreadPriority.MEDIUM 5000 (-1) 0 50 with
          state := ThreadState.PAUSED, cpuUsage := 100, executionTime := 1000 }] := by
    simp [runOps, applyOp, createThread, simulationStep, simulationLoop, tickThread,
      calculateCpuShare, totalWeight, priorityWeights, stdMax, stdMin, pauseAllThreads,
      ThreadInfo.new, ThreadManager.init, timeQuantum, isEmpty_a]
  refine ⟨hrun, ?_⟩
  intro hall
  have h := hall _ _ (by rw [hrun]; exact List.mem_singleton.mpr rfl) (by decide)
  norm_num at h

/-- C7, amended: in every registry reached from the empty one by the public
operations, every entity whose state is neither RUNNING nor PAUSED nor WAITING
(so STOPPED or COMPLETED) has cpuUsage 0. A PAUSED or WAITING entity keeps the
cpuUsage it had: `pauseAllThreads`, and `updateThreadState` to any state other
than STOPPED and COMPLETED (so `pauseThread` and `resumeThread`), leave the
cpuUsage of every entity unchanged. -/
theorem nonRunning_cpuUsage_zero_unless_paused_or_waiting :
    (∀ (ops : List Op) (t : ThreadInfo), t ∈ (runOps ops).threads →
      t.state ≠ ThreadState.RUNNING → t.state ≠ ThreadState.PAUSED →
      t.state ≠ ThreadState.WAITING → t.cpuUsage = 0) ∧
    (∀ m : ThreadManager,
      (pauseAllThreads m).threads.map (fun t => t.cpuUsage) =
        m.threads.map (fun t => t.cpuUsage)) ∧
    (∀ (m : ThreadManager) (threadId : Int) (newState : ThreadState),
      newState ≠ ThreadState.STOPPED → newState ≠ ThreadState.COMPLETED →
      (updateThreadState m threadId newState).2.threads.map (fun t => t.cpuUsage) =
        m.threads.map (fun t => t.cpuUsage)) := by
  refine ⟨?_, ?_, ?_⟩
  · intro ops t ht h1 h2 h3
    apply stoppedZero_runOps ops t ht
    cases hs : t.state with
    | RUNNING => exact absurd hs h1
    | PAUSED => exact absurd hs h2
    | STOPPED => exact Or.inr rfl
    | WAITING => exact absurd hs h3
    | COMPLETED => exact Or.inl rfl
  · intro m
    exact pauseAllThreads_map (fun t : ThreadInfo => t.cpuUsage) (fun _ _ => rfl) m
  · intro m threadId newState h1 h2
    rcases updateThreadStateLoop_cases threadId newState m.threads with
      hl | ⟨pre, u, post, g1, _, _, hl⟩
    · simp [updateThreadState, hl]
    · simp only [updateThreadState, hl]
      rw [g1]
      simp [withState, h1, h2]

/-- The amended statement of C7 at the registry reached by creating an entity,
ticking once and calling `stopAllThreads`. -/
theorem nonRunning_cpuUsage_zero_unless_paused_or_waiting_witness :
    ({ ThreadInfo.new 1 "a" ThreadPriority.MEDIUM 5000 (-1) 0 50 with
        state := ThreadState.STOPPED, cpuUsage := 0, executionTime := 1000 } : ThreadInfo) ∈
      (runOps [Op.createThread "a" ThreadPriority.MEDIUM 5000 (-1) 12000 0 50,
        Op.simulationStep (fun _ => 0), Op.stopAllThreads]).threads ∧
    ({ ThreadInfo.new 1 "a" ThreadPriority.MEDIUM 5000 (-1) 0 50 with
        state := ThreadState.STOPPED, cpuUsage := 0, executionTime := 1000 } : ThreadInfo).cpuUsage
      = 0 := by
  have hmem : ({ ThreadInfo.new 1 "a" ThreadPriority.MEDIUM 5000 (-1) 0 50 with
        state := ThreadState.STOPPED, cpuUsage := 0, executionTime := 1000 } : ThreadInfo) ∈
      (runOps [Op.createThread "a" ThreadPriority.MEDIUM 5000 (-1) 12000 0 50,
        Op.simulationStep (fun _ => 0), Op.stopAllThreads]).threads := by
    simp [runOps, applyOp, createThread, simulationStep, simulationLoop, tickThread,
      calculateCpuShare, totalWeight, priorityWeights, stdMax, stdMin, stopAllThreads,
      ThreadInfo.new, ThreadManager.init, timeQuantum, isEmpty_a]
  exact ⟨hmem, nonRunning_cpuUsage_zero_unless_paused_or_waiting.1 _ _ hmem
    (by decide) (by decide) (by decide)⟩


/-- The statement of C8 at a registry of two entities, for the call that sets
the second one to STOPPED. -/
theorem updateThreadState_spec_witness :
    (updateThreadState
      ⟨[ThreadInfo.new 1 "a" ThreadPriority.LOW 3000 (-1) 0 50,
        { ThreadInfo.new 2 "b" ThreadPriority.HIGH 4000 1 0 60 with cpuUsage := 75 }], 3⟩
      2 ThreadState.STOPPED).1 = true ∧
    ∃ pre t post,
      [ThreadInfo.new 1 "a" ThreadPriority.LOW 3000 (-1) 0 50,
        { ThreadInfo.new 2 "b" ThreadPriority.HIGH 4000 1 0 60 with cpuUsage := 75 }]
        = pre ++ t :: post ∧ (∀ x ∈ pre, x.id ≠ 2) ∧ t.id = 2 ∧
      (updateThreadState
        ⟨[ThreadInfo.new 1 "a" ThreadPriority.LOW 3000 (-1) 0 50,
          { ThreadInfo.new 2 "b" ThreadPriority.HIGH 4000 1 0 60 with cpuUsage := 75 }], 3⟩
        2 ThreadState.STOPPED).2 =
        { threads := pre ++
            { t with
              state := ThreadState.STOPPED
              cpuUsage :=
                if ThreadState.STOPPED = ThreadState.STOPPED ∨
                    ThreadState.STOPPED = ThreadState.COMPLETED then 0
                else t.cpuUsage } :: post
          nextThreadId := 3 } :=
  ⟨rfl, (updateThreadState_spec
      ⟨[ThreadInfo.new 1 "a" ThreadPriority.LOW 3000 (-1) 0 50,
        { ThreadInfo.new 2 "b" ThreadPriority.HIGH 4000 1 0 60 with cpuUsage := 75 }], 3⟩
      2 ThreadState.STOPPED).2.2 rfl⟩


/-! ## pauseAllThreads twice -/

/-- C11: `pauseAllThreads` is idempotent: calling it twice in a row leaves
exactly the registry that one call leaves. -/
theorem pauseAllThreads_idempotent (m : ThreadManager) :
    pauseAllThreads (pauseAllThreads m) = pauseAllThreads m := by
  simp only [pauseAllThreads, List.map_map]
  congr 1
  apply List.map_congr_left
  intro t _
  simp only [Function.comp]
  by_cases h : t.state = ThreadState.RUNNING
  · simp [h]
  · simp [h]

/-! ## Ids returned by createThread -/

theorem applyOp_nextThreadId_createThread (m : ThreadManager) (name : String)
    (priority : ThreadPriority) (customBurstTime parentId randBurst : Int) (now : Nat)
    (memDraw : ℚ) :
    (applyOp m (Op.createThread name priority customBurstTime parentId randBurst now
      memDraw)).nextThreadId = m.nextThreadId + 1 := rfl

theorem deleteThread_nextThreadId (m : ThreadManager) (threadId : Int) :
    (deleteThread m threadId).2.nextThreadId = m.nextThreadId := by
  rcases deleteThread_cases m threadId with hd | ⟨pre, t, post, _, _, _, hd⟩
  · rw [hd]
  · rw [hd]

theorem createdIds_getElem? (ops : List Op) :
    ∀ (m : ThreadManager) (k : Nat) (r : Int),
      (createdIds m ops)[k]? = some r → r = m.nextThreadId + k := by
  induction ops with
  | nil => intro m k r h; simp [createdIds] at h
  | cons op ops ih =>
    intro m k r h
    cases op with
    | createThread name priority customBurstTime parentId randBurst now memDraw =>
      simp only [createdIds] at h
      cases k with
      | zero =>
        simp only [List.getElem?_cons_zero, Option.some.injEq] at h
        rw [← h]
        simp [createThread]
      | succ k =>
        simp only [List.getElem?_cons_succ] at h
        have := ih _ k r h
        rw [applyOp_nextThreadId_createThread] at this
        rw [this]
        push_cast
        ring
    | deleteThread threadId =>
      simp only [createdIds] at h
      have := ih _ k r h
      rw [this]
      simp only [applyOp]
      rw [deleteThread_nextThreadId]
    | updateThreadState threadId newState => exact ih (applyOp m (Op.updateThreadState threadId newState)) k r h
    | pauseThread threadId => exact ih (applyOp m (Op.pauseThread threadId)) k r h
    | resumeThread threadId => exact ih (applyOp m (Op.resumeThread threadId)) k r h
    | stopThread threadId => exact ih (applyOp m (Op.stopThread threadId)) k r h
    | updateThreadPriority threadId newPriority => exact ih (applyOp m (Op.updateThreadPriority threadId newPriority)) k r h
    | pauseAllThreads => exact ih (applyOp m (Op.pauseAllThreads)) k r h
    | resumeAllThreads => exact ih (applyOp m (Op.resumeAllThreads)) k r h
    | stopAllThreads => exact ih (applyOp m (Op.stopAllThreads)) k r h
    | simulationStep noise => exact ih (applyOp m (Op.simulationStep noise)) k r h

/-- C12: over every sequence of public operations from the empty registry
the k-th call of `createThread` returns k (1, 2, 3, ... whatever deletions come
in between), so that no id is returned twice, and in every registry reached the
ids of the live entities are pairwise distinct. -/
theorem createThread_ids_sequential_and_unique (ops : List Op) :
    (∀ (k : Nat) (r : Int), (createdIds ThreadManager.init ops)[k]? = some r → r = (k : Int) + 1) ∧
    (createdIds ThreadManager.init ops).Nodup ∧
    ((runOps ops).threads.map (fun t => t.id)).Nodup := by
  have hk : ∀ (k : Nat) (r : Int),
      (createdIds ThreadManager.init ops)[k]? = some r → r = (k : Int) + 1 := by
    intro k r h
    have := createdIds_getElem? ops ThreadManager.init k r h
    rw [this]
    simp [ThreadManager.init, add_comm]
  refine ⟨hk, ?_, (idsFresh_runOps ops).1⟩
  rw [List.nodup_iff_getElem?_ne_getElem?]
  intro i j hij hj heq
  have hi : i < (createdIds ThreadManager.init ops).length := lt_trans hij hj
  have h1 := hk i _ (List.getElem?_eq_getElem hi)
  have h2 := hk j _ (List.getElem?_eq_getElem hj)
  rw [List.getElem?_eq_getElem hi, List.getElem?_eq_getElem hj, Option.some.injEq] at heq
  rw [heq, h2] at h1
  omega


/-- The statement of C12 at a sequence with a deletion between two creations. -/
theorem createThread_ids_sequential_and_unique_witness :
    (createdIds ThreadManager.init
      [Op.createThread "a" ThreadPriority.LOW 3000 (-1) 12000 0 50, Op.deleteThread 1,
        Op.createThread "b" ThreadPriority.HIGH 4000 (-1) 12000 0 60])[1]? = some 2 ∧
    (2 : Int) = ((1 : Nat) : Int) + 1 :=
  ⟨rfl, (createThread_ids_sequential_and_unique
      [Op.createThread "a" ThreadPriority.LOW 3000 (-1) 12000 0 50, Op.deleteThread 1,
        Op.createThread "b" ThreadPriority.HIGH 4000 (-1) 12000 0 60]).1 1 2 rfl⟩

/-! ## The burst time of a new entity -/

/-- C13: the entity that `createThread` appends has the caller's
`customBurstTime` as burstTime when that is above 0, and otherwise the random
draw, a value from 10000 to 30000; a caller value that is not positive is not
stored, and the call is not refused: the entity is appended all the same. -/
theorem createThread_burstTime (m : ThreadManager) (name : String)
    (priority : ThreadPriority) (customBurstTime parentId randBurst : Int) (now : Nat)
    (memDraw : ℚ) (hr : 10000 ≤ randBurst ∧ randBurst ≤ 30000) :
    ∃ e, (createThread m name priority customBurstTime parentId randBurst now memDraw).2.threads
        = m.threads ++ [e] ∧
      (0 < customBurstTime → e.burstTime = customBurstTime) ∧
      (customBurstTime ≤ 0 → e.burstTime = randBurst ∧ 10000 ≤ e.burstTime ∧
        e.burstTime ≤ 30000 ∧ e.burstTime ≠ customBurstTime) := by
  refine ⟨_, rfl, ?_, ?_⟩
  · intro h
    simp [ThreadInfo.new, h]
  · intro h
    have hn : ¬ customBurstTime > 0 := by omega
    simp only [ThreadInfo.new, hn, if_false]
    exact ⟨trivial, hr.1, hr.2, by omega⟩

/-- The statement of C13 at a call with the caller value 0. -/
theorem createThread_burstTime_witness :
    ((10000 : Int) ≤ 12000 ∧ (12000 : Int) ≤ 30000) ∧
    ∃ e, (createThread ThreadManager.init "a" ThreadPriority.LOW 0 (-1) 12000 0 50).2.threads
        = ThreadManager.init.threads ++ [e] ∧
      ((0 : Int) < 0 → e.burstTime = 0) ∧
      ((0 : Int) ≤ 0 → e.burstTime = 12000 ∧ 10000 ≤ e.burstTime ∧
        e.burstTime ≤ 30000 ∧ e.burstTime ≠ 0) :=
  ⟨by decide, createThread_burstTime ThreadManager.init "a" ThreadPriority.LOW 0 (-1) 12000 0 50
    (by decide)⟩

/-! ## No RUNNING entity -/

/-- C14: `getNextThread` returns `nullptr` when the list holds no RUNNING
entity, the empty list included, and returns an entity whenever the list holds
at least one RUNNING entity. -/
theorem getNextThread_none_iff_no_running (threads : List ThreadInfo) :
    ((∀ t ∈ threads, t.state ≠ ThreadState.RUNNING) → getNextThread threads = none) ∧
    ((∃ t ∈ threads, t.state = ThreadState.RUNNING) → ∃ p, getNextThread threads = some p) ∧
    getNextThread [] = none := by
  refine ⟨?_, ?_, rfl⟩
  · intro h
    have hf : threads.enum.filter (fun p => decide (p.2.state = ThreadState.RUNNING)) = [] := by
      rw [List.filter_eq_nil_iff]
      intro p hp
      have := h p.2 (List.snd_mem_of_mem_enum hp)
      simpa using this
    simp [getNextThread, hf]
  · intro h
    obtain ⟨i, m, h1, _⟩ := getNextThread_first threads h
    exact ⟨(i, m), h1⟩

/-- The statement of C14 at a list with a STOPPED entity only and at a list
with a RUNNING entity. -/
theorem getNextThread_none_iff_no_running_witness :
    getNextThread [{ ThreadInfo.new 1 "a" ThreadPriority.LOW 3000 (-1) 0 50 with
        state := ThreadState.STOPPED }] = none ∧
    ∃ p, getNextThread [ThreadInfo.new 1 "a" ThreadPriority.LOW 3000 (-1) 0 50] = some p :=
  ⟨(getNextThread_none_iff_no_running _).1 (by
      intro t ht
      rw [List.mem_singleton] at ht
      rw [ht]
      decide),
    (getNextThread_none_iff_no_running _).2.1 ⟨_, List.mem_singleton.mpr rfl, rfl⟩⟩

/-! ## Weights -/

theorem priorityWeights_pos (p : ThreadPriority) : 0 < priorityWeights p := by
  cases p <;> decide

/-- The weight that an entity adds to the total. -/
theorem totalWeight_foldl (l : List ThreadInfo) (acc : Int) :
    l.foldl
      (fun acc t => if t.state = ThreadState.RUNNING then acc + priorityWeights t.priority else acc)
      acc =
    acc + (l.map (fun t =>
      if t.state = ThreadState.RUNNING then priorityWeights t.priority else 0)).sum := by
  induction l generalizing acc with
  | nil => simp
  | cons a l ih =>
    simp only [List.foldl_cons, List.map_cons, List.sum_cons]
    rw [ih]
    split <;> ring

theorem totalWeight_eq_sum (l : List ThreadInfo) :
    totalWeight l = (l.map (fun t =>
      if t.state = ThreadState.RUNNING then priorityWeights t.priority else 0)).sum := by
  unfold totalWeight
  rw [totalWeight_foldl]
  simp

theorem totalWeight_cons (a : ThreadInfo) (l : List ThreadInfo) :
    totalWeight (a :: l) =
      (if a.state = ThreadState.RUNNING then priorityWeights a.priority else 0) + totalWeight l := by
  simp [totalWeight_eq_sum]

theorem totalWeight_nonneg (l : List ThreadInfo) : 0 ≤ totalWeight l := by
  induction l with
  | nil => simp [totalWeight]
  | cons a l ih =>
    rw [totalWeight_cons]
    split
    · have := priorityWeights_pos a.priority
      omega
    · omega

theorem totalWeight_eq_zero_iff (l : List ThreadInfo) :
    totalWeight l = 0 ↔ ∀ t ∈ l, t.state ≠ ThreadState.RUNNING := by
  induction l with
  | nil => simp [totalWeight]
  | cons a l ih =>
    rw [totalWeight_cons]
    have hn := totalWeight_nonneg l
    have hp := priorityWeights_pos a.priority
    constructor
    · intro h
      by_cases ha : a.state = ThreadState.RUNNING
      · rw [if_pos ha] at h; omega
      · rw [if_neg ha] at h
        intro t ht
        rcases List.mem_cons.mp ht with rfl | ht
        · exact ha
        · exact (ih.mp (by omega)) t ht
    · intro h
      have ha := h a (List.mem_cons_self _ _)
      rw [if_neg ha, ih.mpr (fun t ht => h t (List.mem_cons_of_mem _ ht))]
      rfl

/-- C15: for every list and every perturbation value `calculateCpuShare`
returns exactly 0 when the state of the given entity is not RUNNING, and
exactly 0 when the total weight of the RUNNING entities of the list is zero,
which is the case exactly when the list holds no RUNNING entity. -/
theorem calculateCpuShare_zero (thread : ThreadInfo) (allThreads : List ThreadInfo)
    (variance : ℚ) :
    (thread.state ≠ ThreadState.RUNNING → calculateCpuShare thread allThreads variance = 0) ∧
    (totalWeight allThreads = 0 → calculateCpuShare thread allThreads variance = 0) ∧
    (totalWeight allThreads = 0 ↔ ∀ t ∈ allThreads, t.state ≠ ThreadState.RUNNING) := by
  refine ⟨?_, ?_, totalWeight_eq_zero_iff allThreads⟩
  · intro h
    simp [calculateCpuShare, h]
  · intro h
    simp [calculateCpuShare, h]

/-- The statement of C15 at a PAUSED entity and at a list without a RUNNING
entity, with the perturbation 3. -/
theorem calculateCpuShare_zero_witness :
    calculateCpuShare
      { ThreadInfo.new 1 "a" ThreadPriority.LOW 3000 (-1) 0 50 with state := ThreadState.PAUSED }
      [ThreadInfo.new 2 "b" ThreadPriority.HIGH 3000 (-1) 0 50] 3 = 0 ∧
    calculateCpuShare (ThreadInfo.new 2 "b" ThreadPriority.HIGH 3000 (-1) 0 50) [] 3 = 0 :=
  ⟨(calculateCpuShare_zero _ _ 3).1 (by decide), (calculateCpuShare_zero _ _ 3).2.1 rfl⟩

theorem calculateCpuShare_eq_baseShare (thread : ThreadInfo) (allThreads : List ThreadInfo)
    (variance : ℚ) (hrun : thread.state = ThreadState.RUNNING)
    (htotal : totalWeight allThreads ≠ 0) :
    calculateCpuShare thread allThreads variance =
      stdMax 0 (stdMin 100 (baseShare thread allThreads + variance)) := by
  simp [calculateCpuShare, baseShare, hrun, htotal]

/-- C16: in a list whose RUNNING entities all have the same priority, the
share before the perturbation, `100 * weight / totalWeight` with the weights
LOW = 1, MEDIUM = 2, HIGH = 3, CRITICAL = 4, is the same for every RUNNING
entity of the list, and it is the value to which `calculateCpuShare` adds the
perturbation before it clamps. -/
theorem baseShare_equal_for_equal_priority (allThreads : List ThreadInfo)
    (hsame : ∀ a ∈ allThreads, ∀ b ∈ allThreads, a.state = ThreadState.RUNNING →
      b.state = ThreadState.RUNNING → a.priority = b.priority) :
    (∀ a ∈ allThreads, ∀ b ∈ allThreads, a.state = ThreadState.RUNNING →
      b.state = ThreadState.RUNNING →
      baseShare a allThreads = baseShare b allThreads ∧
      baseShare a allThreads = 100 * (priorityWeights a.priority : ℚ) / (totalWeight allThreads : ℚ) ∧
      ∀ variance : ℚ, calculateCpuShare a allThreads variance =
        stdMax 0 (stdMin 100 (baseShare a allThreads + variance))) ∧
    priorityWeights ThreadPriority.LOW = 1 ∧ priorityWeights ThreadPriority.MEDIUM = 2 ∧
    priorityWeights ThreadPriority.HIGH = 3 ∧ priorityWeights ThreadPriority.CRITICAL = 4 := by
  refine ⟨?_, rfl, rfl, rfl, rfl⟩
  intro a ha b hb hra hrb
  refine ⟨?_, ?_, ?_⟩
  · unfold baseShare
    rw [hsame a ha b hb hra hrb]
  · unfold baseShare
    ring
  · intro variance
    apply calculateCpuShare_eq_baseShare a allThreads variance hra
    intro h0
    exact (totalWeight_eq_zero_iff allThreads).mp h0 a ha hra


/-- The statement of C16 at a list of two RUNNING entities of priority MEDIUM. -/
theorem baseShare_equal_for_equal_priority_witness :
    baseShare (ThreadInfo.new 1 "a" ThreadPriority.MEDIUM 3000 (-1) 0 50)
        [ThreadInfo.new 1 "a" ThreadPriority.MEDIUM 3000 (-1) 0 50,
          ThreadInfo.new 2 "b" ThreadPriority.MEDIUM 4000 (-1) 0 60] =
      baseShare (ThreadInfo.new 2 "b" ThreadPriority.MEDIUM 4000 (-1) 0 60)
        [ThreadInfo.new 1 "a" ThreadPriority.MEDIUM 3000 (-1) 0 50,
          ThreadInfo.new 2 "b" ThreadPriority.MEDIUM 4000 (-1) 0 60] :=
  ((baseShare_equal_for_equal_priority
      [ThreadInfo.new 1 "a" ThreadPriority.MEDIUM 3000 (-1) 0 50,
        ThreadInfo.new 2 "b" ThreadPriority.MEDIUM 4000 (-1) 0 60]
      (by
        intro a ha b hb _ _
        simp only [List.mem_cons, List.mem_singleton, List.not_mem_nil, or_false] at ha hb
        rcases ha with rfl | rfl <;> rcases hb with rfl | rfl <;> rfl)).1
    _ (List.mem_cons_self _ _) _ (List.mem_cons_of_mem _ (List.mem_singleton.mpr rfl))
    rfl rfl).1

/-! ## executionTime never goes down -/

theorem exists_mem_of_map_eq {β : Type} (f : ThreadInfo → β) (l l1 : List ThreadInfo)
    (hmap : l1.map f = l.map f) (t1 : ThreadInfo) (h : t1 ∈ l1) : ∃ u ∈ l, f u = f t1 := by
  have hmem : f t1 ∈ l1.map f := List.mem_map_of_mem _ h
  rw [hmap] at hmem
  obtain ⟨u, hu, heq⟩ := List.mem_map.mp hmem
  exact ⟨u, hu, heq⟩

theorem tickAt_executionTime (noise : Nat → ℚ) (cur : List ThreadInfo) (pos : Nat)
    (t : ThreadInfo) :
    (t.state = ThreadState.RUNNING →
      (tickAt noise cur pos t).executionTime = t.executionTime + 1000) ∧
    (t.state ≠ ThreadState.RUNNING → tickAt noise cur pos t = t) := by
  constructor
  · intro h
    simp only [tickAt, h, if_true]
    exact tickThread_executionTime t _
  · intro h
    simp [tickAt, h]

/-- Where an entity of the registry after an operation comes from: it is the
new entity of `createThread`, or it stands for an entity of the registry before
the operation with the same id, with the same executionTime unless the
operation is `simulationStep` and that entity was RUNNING. -/
theorem applyOp_origin (m : ThreadManager) (op : Op) (t1 : ThreadInfo)
    (h : t1 ∈ (applyOp m op).threads) :
    t1.id = m.nextThreadId ∨
    ∃ u ∈ m.threads, u.id = t1.id ∧
      (t1.executionTime = u.executionTime ∨
        ((∃ noise, op = Op.simulationStep noise) ∧ u.state = ThreadState.RUNNING ∧
          t1.executionTime = u.executionTime + 1000)) := by
  have hsame : ∀ l : List ThreadInfo,
      l.map (fun t : ThreadInfo => (t.id, t.executionTime)) =
        m.threads.map (fun t : ThreadInfo => (t.id, t.executionTime)) → t1 ∈ l →
      ∃ u ∈ m.threads, u.id = t1.id ∧
        (t1.executionTime = u.executionTime ∨
          ((∃ noise, op = Op.simulationStep noise) ∧ u.state = ThreadState.RUNNING ∧
            t1.executionTime = u.executionTime + 1000)) := by
    intro l hmap hl
    obtain ⟨u, hu, heq⟩ := exists_mem_of_map_eq (fun t : ThreadInfo => (t.id, t.executionTime)) _ _ hmap t1 hl
    simp only [Prod.mk.injEq] at heq
    exact ⟨u, hu, heq.1, Or.inl heq.2.symm⟩
  cases op with
  | createThread name priority customBurstTime parentId randBurst now memDraw =>
    simp only [applyOp, createThread, List.mem_append, List.mem_singleton] at h
    rcases h with h | rfl
    · exact Or.inr ⟨t1, h, rfl, Or.inl rfl⟩
    · exact Or.inl rfl
  | deleteThread threadId =>
    right
    rcases deleteThread_cases m threadId with hd | ⟨pre, u, post, h1, _, _, hd⟩
    · simp only [applyOp, hd] at h
      exact ⟨t1, h, rfl, Or.inl rfl⟩
    · simp only [applyOp, hd] at h
      refine ⟨t1, ?_, rfl, Or.inl rfl⟩
      rw [h1]
      rcases List.mem_append.mp h with h | h
      · exact List.mem_append_left _ h
      · exact List.mem_append_right _ (List.mem_cons_of_mem _ h)
  | updateThreadState threadId newState =>
    exact Or.inr (hsame _ (updateThreadState_map (fun t : ThreadInfo => (t.id, t.executionTime)) (fun _ _ _ => rfl) m threadId newState) h)
  | pauseThread threadId =>
    exact Or.inr (hsame _
      (updateThreadState_map (fun t : ThreadInfo => (t.id, t.executionTime)) (fun _ _ _ => rfl) m threadId ThreadState.PAUSED) h)
  | resumeThread threadId =>
    exact Or.inr (hsame _
      (updateThreadState_map (fun t : ThreadInfo => (t.id, t.executionTime)) (fun _ _ _ => rfl) m threadId ThreadState.RUNNING) h)
  | stopThread threadId =>
    exact Or.inr (hsame _
      (updateThreadState_map (fun t : ThreadInfo => (t.id, t.executionTime)) (fun _ _ _ => rfl) m threadId ThreadState.STOPPED) h)
  | updateThreadPriority threadId newPriority =>
    exact Or.inr (hsame _ (updateThreadPriority_map (fun t : ThreadInfo => (t.id, t.executionTime)) (fun _ _ => rfl) m threadId newPriority) h)
  | pauseAllThreads => exact Or.inr (hsame _ (pauseAllThreads_map (fun t : ThreadInfo => (t.id, t.executionTime)) (fun _ _ => rfl) m) h)
  | resumeAllThreads => exact Or.inr (hsame _ (resumeAllThreads_map (fun t : ThreadInfo => (t.id, t.executionTime)) (fun _ _ => rfl) m) h)
  | stopAllThreads => exact Or.inr (hsame _ (stopAllThreads_map (fun t : ThreadInfo => (t.id, t.executionTime)) (fun _ _ _ => rfl) m) h)
  | simulationStep noise =>
    right
    obtain ⟨i, u, cur, hu, rfl⟩ := simulationStep_mem m noise t1 h
    refine ⟨u, List.getElem?_mem hu, (tickAt_map (fun t => t.id) (fun _ _ _ _ => rfl) _ _ _ _).symm, ?_⟩
    by_cases hrun : u.state = ThreadState.RUNNING
    · exact Or.inr ⟨⟨noise, rfl⟩, hrun, (tickAt_executionTime noise cur i u).1 hrun⟩
    · left
      rw [(tickAt_executionTime noise cur i u).2 hrun]

/-- C17: for every registry reached through the public operations and every
further public operation, an entity that is in the registry before and after
the operation (the same id) has afterwards an executionTime that is at least
the one before; the executionTime differs only when the operation is
`simulationStep` and the entity was RUNNING. -/
theorem executionTime_monotone (ops : List Op) (op : Op) (t t1 : ThreadInfo) :
    t ∈ (runOps ops).threads → t1 ∈ (applyOp (runOps ops) op).threads → t1.id = t.id →
    t.executionTime ≤ t1.executionTime ∧
      (t1.executionTime ≠ t.executionTime →
        (∃ noise, op = Op.simulationStep noise) ∧ t.state = ThreadState.RUNNING) := by
  intro ht ht1 hid
  obtain ⟨hnodup, hlt⟩ := idsFresh_runOps ops
  rcases applyOp_origin (runOps ops) op t1 ht1 with hnew | ⟨u, hu, huid, hex⟩
  · exfalso
    have := hlt t.id (List.mem_map_of_mem _ ht)
    omega
  · have hut : u = t := List.inj_on_of_nodup_map hnodup hu ht (huid.trans hid)
    subst hut
    rcases hex with hex | ⟨hstep, hrun, hex⟩
    · exact ⟨by omega, fun hne => absurd hex hne⟩
    · exact ⟨by omega, fun _ => ⟨hstep, hrun⟩⟩


/-- The statement of C17 at the tick that follows the creation of an entity. -/
theorem executionTime_monotone_witness :
    ThreadInfo.new 1 "a" ThreadPriority.MEDIUM 5000 (-1) 0 50 ∈
      (runOps [Op.createThread "a" ThreadPriority.MEDIUM 5000 (-1) 12000 0 50]).threads ∧
    ({ ThreadInfo.new 1 "a" ThreadPriority.MEDIUM 5000 (-1) 0 50 with
        cpuUsage := 100, executionTime := 1000 } : ThreadInfo) ∈
      (applyOp (runOps [Op.createThread "a" ThreadPriority.MEDIUM 5000 (-1) 12000 0 50])
        (Op.simulationStep (fun _ => 0))).threads ∧
    (ThreadInfo.new 1 "a" ThreadPriority.MEDIUM 5000 (-1) 0 50).executionTime ≤
      ({ ThreadInfo.new 1 "a" ThreadPriority.MEDIUM 5000 (-1) 0 50 with
        cpuUsage := 100, executionTime := 1000 } : ThreadInfo).executionTime := by
  have h1 : ThreadInfo.new 1 "a" ThreadPriority.MEDIUM 5000 (-1) 0 50 ∈
      (runOps [Op.createThread "a" ThreadPriority.MEDIUM 5000 (-1) 12000 0 50]).threads := by
    simp [runOps, applyOp, createThread, ThreadInfo.new, ThreadManager.init, isEmpty_a]
  have h2 : ({ ThreadInfo.new 1 "a" ThreadPriority.MEDIUM 5000 (-1) 0 50 with
        cpuUsage := 100, executionTime := 1000 } : ThreadInfo) ∈
      (applyOp (runOps [Op.createThread "a" ThreadPriority.MEDIUM 5000 (-1) 12000 0 50])
        (Op.simulationStep (fun _ => 0))).threads := by
    simp [runOps, applyOp, createThread, simulationStep, simulationLoop, tickThread,
      calculateCpuShare, totalWeight, priorityWeights, stdMax, stdMin, ThreadInfo.new,
      ThreadManager.init, timeQuantum, isEmpty_a]
  exact ⟨h1, h2, (executionTime_monotone _ _ _ _ h1 h2 rfl).1⟩

/-! ## What a tick leaves alone -/

/-- C20: `simulationStep` leaves every entity that is not RUNNING at the start
of the tick unchanged in every field; for all entities it leaves id, name,
priority, burstTime, memoryUsage, parentId (and startTime) unchanged, and it
keeps the number and the order of the entities and the id counter. -/
theorem simulationStep_frame (m : ThreadManager) (noise : Nat → ℚ) :
    (simulationStep m noise).threads.length = m.threads.length ∧
    (simulationStep m noise).nextThreadId = m.nextThreadId ∧
    (∀ (i : Nat) (t : ThreadInfo), m.threads[i]? = some t → t.state ≠ ThreadState.RUNNING →
      (simulationStep m noise).threads[i]? = some t) ∧
    (simulationStep m noise).threads.map
        (fun t => (t.id, t.name, t.priority, t.burstTime, t.memoryUsage, t.parentId, t.startTime)) =
      m.threads.map
        (fun t => (t.id, t.name, t.priority, t.burstTime, t.memoryUsage, t.parentId, t.startTime)) := by
  refine ⟨simulationStep_length m noise, rfl, ?_, ?_⟩
  · intro i t hi hrun
    rw [simulationStep_getElem? m noise i t hi, (tickAt_executionTime noise _ i t).2 hrun]
  · exact simulationStep_map
      (fun t : ThreadInfo =>
        (t.id, t.name, t.priority, t.burstTime, t.memoryUsage, t.parentId, t.startTime))
      (fun _ _ _ _ => rfl) m noise

/-- The statement of C20 at a registry with a PAUSED and a RUNNING entity. -/
theorem simulationStep_frame_witness :
    (simulationStep
      ⟨[{ ThreadInfo.new 1 "a" ThreadPriority.LOW 3000 (-1) 0 50 with
            state := ThreadState.PAUSED, cpuUsage := 30 },
        ThreadInfo.new 2 "b" ThreadPriority.HIGH 5000 (-1) 0 60], 3⟩
      (fun _ => 0)).threads[0]? =
    some { ThreadInfo.new 1 "a" ThreadPriority.LOW 3000 (-1) 0 50 with
            state := ThreadState.PAUSED, cpuUsage := 30 } :=
  (simulationStep_frame
      ⟨[{ ThreadInfo.new 1 "a" ThreadPriority.LOW 3000 (-1) 0 50 with
            state := ThreadState.PAUSED, cpuUsage := 30 },
        ThreadInfo.new 2 "b" ThreadPriority.HIGH 5000 (-1) 0 60], 3⟩
      (fun _ => 0)).2.2.1 0 _ rfl (by decide)


/-! ## The list that the shares of a tick are computed over -/

theorem stdMax_eq_max (a b : ℚ) : stdMax a b = max a b := by
  unfold stdMax
  rcases lt_or_le a b with h | h
  · rw [if_pos h, max_eq_right (le_of_lt h)]
  · rw [if_neg (not_lt.mpr h), max_eq_left h]

theorem stdMin_eq_min (a b : ℚ) : stdMin a b = min a b := by
  unfold stdMin
  rcases lt_or_le b a with h | h
  · rw [if_pos h, min_eq_right (le_of_lt h)]
  · rw [if_neg (not_lt.mpr h), min_eq_left h]

theorem totalWeight_append (l1 l2 : List ThreadInfo) :
    totalWeight (l1 ++ l2) = totalWeight l1 + totalWeight l2 := by
  simp [totalWeight_eq_sum]

theorem totalWeight_congr (l1 l2 : List ThreadInfo)
    (h : l1.map (fun t => (t.state, t.priority)) = l2.map (fun t => (t.state, t.priority))) :
    totalWeight l1 = totalWeight l2 := by
  have hg : ∀ l : List ThreadInfo,
      l.map (fun t => if t.state = ThreadState.RUNNING then priorityWeights t.priority else 0) =
        (l.map (fun t => (t.state, t.priority))).map
          (fun p => if p.1 = ThreadState.RUNNING then priorityWeights p.2 else 0) := by
    intro l
    simp [List.map_map, Function.comp]
  rw [totalWeight_eq_sum, totalWeight_eq_sum, hg l1, hg l2, h]

/-- C19, as stated, fails: after two calls of `createThread` (MEDIUM with burst
time 1000, MEDIUM with burst time 5000) and one `simulationStep` with
perturbation 0 the first entity is COMPLETED and the second, RUNNING before and
after the tick, has cpuUsage 100, while the start-of-tick total weight 4 gives
`clamp(100 * 2 / 4 + 0) = 50`. -/
theorem share_not_over_start_of_tick_registry :
    (runOps [Op.createThread "a" ThreadPriority.MEDIUM 1000 (-1) 12000 0 50,
        Op.createThread "a" ThreadPriority.MEDIUM 5000 (-1) 12000 0 50,
        Op.simulationStep (fun _ => 0)]).threads =
      [{ ThreadInfo.new 1 "a" ThreadPriority.MEDIUM 1000 (-1) 0 50 with
          state := ThreadState.COMPLETED, cpuUsage := 0, executionTime := 1000 },
        { ThreadInfo.new 2 "a" ThreadPriority.MEDIUM 5000 (-1) 0 50 with
          cpuUsage := 100, executionTime := 1000 }] ∧
    totalWeight (runOps [Op.createThread "a" ThreadPriority.MEDIUM 1000 (-1) 12000 0 50,
        Op.createThread "a" ThreadPriority.MEDIUM 5000 (-1) 12000 0 50]).threads = 4 ∧
    ¬ (∀ (m : ThreadManager) (noise : Nat → ℚ) (i : Nat) (t t1 : ThreadInfo),
        m.threads[i]? = some t → t.state = ThreadState.RUNNING →
        (simulationStep m noise).threads[i]? = some t1 → t1.state = ThreadState.RUNNING →
        t1.cpuUsage =
          max 0 (min 100 (100 * (priorityWeights t.priority : ℚ) / (totalWeight m.threads : ℚ)
            + noise i))) := by
  have hbefore : (runOps [Op.createThread "a" ThreadPriority.MEDIUM 1000 (-1) 12000 0 50,
        Op.createThread "a" ThreadPriority.MEDIUM 5000 (-1) 12000 0 50]) =
      ⟨[ThreadInfo.new 1 "a" ThreadPriority.MEDIUM 1000 (-1) 0 50,
        ThreadInfo.new 2 "a" ThreadPriority.MEDIUM 5000 (-1) 0 50], 3⟩ := by
    simp [runOps, applyOp, createThread, ThreadInfo.new, ThreadManager.init, isEmpty_a]
  have hafter : (simulationStep
      ⟨[ThreadInfo.new 1 "a" ThreadPriority.MEDIUM 1000 (-1) 0 50,
        ThreadInfo.new 2 "a" ThreadPriority.MEDIUM 5000 (-1) 0 50], 3⟩ (fun _ => 0)).threads =
      [{ ThreadInfo.new 1 "a" ThreadPriority.MEDIUM 1000 (-1) 0 50 with
          state := ThreadState.COMPLETED, cpuUsage := 0, executionTime := 1000 },
        { ThreadInfo.new 2 "a" ThreadPriority.MEDIUM 5000 (-1) 0 50 with
          cpuUsage := 100, executionTime := 1000 }] := by
    simp [simulationStep, simulationLoop, tickThread, calculateCpuShare, totalWeight,
      priorityWeights, stdMax, stdMin, ThreadInfo.new, timeQuantum]
  have htotal : totalWeight
      [ThreadInfo.new 1 "a" ThreadPriority.MEDIUM 1000 (-1) 0 50,
        ThreadInfo.new 2 "a" ThreadPriority.MEDIUM 5000 (-1) 0 50] = 4 := by
    simp [totalWeight, priorityWeights, ThreadInfo.new]
  refine ⟨?_, ?_, ?_⟩
  · have : (runOps [Op.createThread "a" ThreadPriority.MEDIUM 1000 (-1) 12000 0 50,
        Op.createThread "a" ThreadPriority.MEDIUM 5000 (-1) 12000 0 50,
        Op.simulationStep (fun _ => 0)]) =
        simulationStep (runOps [Op.createThread "a" ThreadPriority.MEDIUM 1000 (-1) 12000 0 50,
          Op.createThread "a" ThreadPriority.MEDIUM 5000 (-1) 12000 0 50]) (fun _ => 0) := rfl
    rw [this, hbefore, hafter]
  · rw [hbefore]
    exact htotal
  · intro hall
    have h := hall
      ⟨[ThreadInfo.new 1 "a" ThreadPriority.MEDIUM 1000 (-1) 0 50,
        ThreadInfo.new 2 "a" ThreadPriority.MEDIUM 5000 (-1) 0 50], 3⟩ (fun _ => 0) 1
      (ThreadInfo.new 2 "a" ThreadPriority.MEDIUM 5000 (-1) 0 50)
      { ThreadInfo.new 2 "a" ThreadPriority.MEDIUM 5000 (-1) 0 50 with
          cpuUsage := 100, executionTime := 1000 }
      rfl rfl (by rw [hafter]; rfl) rfl
    rw [htotal] at h
    norm_num [priorityWeights, ThreadInfo.new] at h


theorem tickAt_state_priority (noise : Nat → ℚ) (cur : List ThreadInfo) (pos : Nat)
    (u : ThreadInfo)
    (h : u.state = ThreadState.RUNNING → (tickAt noise cur pos u).state = ThreadState.RUNNING) :
    ((tickAt noise cur pos u).state, (tickAt noise cur pos u).priority) = (u.state, u.priority) := by
  have hp : (tickAt noise cur pos u).priority = u.priority :=
    tickAt_map (fun t => t.priority) (fun _ _ _ _ => rfl) noise cur pos u
  by_cases hrun : u.state = ThreadState.RUNNING
  · rw [hp, h hrun, hrun]
  · rw [(tickAt_executionTime noise cur pos u).2 hrun]

/-- C19, amended: within one `simulationStep` the share of an entity is
computed when the loop reaches it, over the vector as it stands then. For every
entity that is RUNNING at the start of the tick and still RUNNING at its end,
the cpuUsage written is `clamp(100 * w / T + v, 0, 100)` with `w` its weight,
`v` its perturbation and `T` the total weight of the entities in front of it
that are RUNNING after their own update plus that of the entities from its
position on that were RUNNING at the start of the tick. `T` is the total
weight at the start of the tick when no entity in front of it completes
during the tick. -/
theorem share_over_registry_when_reached (m : ThreadManager) (noise : Nat → ℚ) (i : Nat)
    (t t1 : ThreadInfo) (ht : m.threads[i]? = some t) (hrun : t.state = ThreadState.RUNNING)
    (ht1 : (simulationStep m noise).threads[i]? = some t1)
    (hrun1 : t1.state = ThreadState.RUNNING) :
    t1.cpuUsage =
      max 0 (min 100 (100 * (priorityWeights t.priority : ℚ) /
        ((totalWeight ((simulationStep m noise).threads.take i) +
          totalWeight (m.threads.drop i) : Int) : ℚ) + noise i)) ∧
    ((∀ (j : Nat) (u u1 : ThreadInfo), j < i → m.threads[j]? = some u →
        u.state = ThreadState.RUNNING → (simulationStep m noise).threads[j]? = some u1 →
        u1.state = ThreadState.RUNNING) →
      totalWeight ((simulationStep m noise).threads.take i) + totalWeight (m.threads.drop i) =
        totalWeight m.threads) := by
  have hget := simulationStep_getElem? m noise i t ht
  rw [ht1, Option.some.injEq] at hget
  constructor
  · have hlt : ¬ t.executionTime + 1000 ≥ t.burstTime := by
      intro hge
      have hc := (tickThread_completed t
        (calculateCpuShare t ((simulationStep m noise).threads.take i ++ m.threads.drop i)
          (noise i)) hge).1
      rw [hget] at hrun1
      simp only [tickAt, hrun, if_true] at hrun1
      rw [hc] at hrun1
      exact absurd hrun1 (by decide)
    have hcpu := (tickThread_running t
      (calculateCpuShare t ((simulationStep m noise).threads.take i ++ m.threads.drop i)
        (noise i)) hlt).2
    have hmem : t ∈ m.threads.drop i := by
      apply List.getElem?_mem (n := 0)
      rw [List.getElem?_drop]
      simpa using ht
    have htotal : totalWeight ((simulationStep m noise).threads.take i ++ m.threads.drop i)
        ≠ 0 := by
      intro h0
      exact (totalWeight_eq_zero_iff _).mp h0 t (List.mem_append_right _ hmem) hrun
    rw [hget]
    simp only [tickAt, hrun, if_true]
    rw [hcpu, calculateCpuShare_eq_baseShare t _ (noise i) hrun htotal, stdMax_eq_max,
      stdMin_eq_min, baseShare, totalWeight_append]
    congr 3
    ring
  · intro hstay
    have hmap : ((simulationStep m noise).threads.take i).map (fun t => (t.state, t.priority)) =
        (m.threads.take i).map (fun t => (t.state, t.priority)) := by
      apply List.ext_getElem?
      intro j
      rw [List.getElem?_map, List.getElem?_map]
      by_cases hj : j < i
      · rw [List.getElem?_take_of_lt hj, List.getElem?_take_of_lt hj]
        cases hu : m.threads[j]? with
        | none =>
          have hn : m.threads.length ≤ j := List.getElem?_eq_none_iff.mp hu
          rw [List.getElem?_eq_none (by rw [simulationStep_length]; exact hn)]
        | some u =>
          have hstep := simulationStep_getElem? m noise j u hu
          rw [hstep]
          simp only [Option.map_some']
          congr 1
          apply tickAt_state_priority
          intro hru
          exact hstay j u _ hj hu hru hstep
      · rw [List.getElem?_take_eq_none (Nat.le_of_not_lt hj),
          List.getElem?_take_eq_none (Nat.le_of_not_lt hj)]
    rw [totalWeight_congr _ _ hmap, ← totalWeight_append, List.take_append_drop]

/-- The amended statement of C19 at the second entity of the registry of the
counterexample: its share is taken over the total weight 2 that is left when
the loop reaches it. -/
theorem share_over_registry_when_reached_witness :
    ({ ThreadInfo.new 2 "a" ThreadPriority.MEDIUM 5000 (-1) 0 50 with
        cpuUsage := 100, executionTime := 1000 } : ThreadInfo).cpuUsage =
      max 0 (min 100 (100 *
        (priorityWeights (ThreadInfo.new 2 "a" ThreadPriority.MEDIUM 5000 (-1) 0 50).priority : ℚ) /
        ((totalWeight ((simulationStep
            ⟨[ThreadInfo.new 1 "a" ThreadPriority.MEDIUM 1000 (-1) 0 50,
              ThreadInfo.new 2 "a" ThreadPriority.MEDIUM 5000 (-1) 0 50], 3⟩
            (fun _ => 0)).threads.take 1) +
          totalWeight ((⟨[ThreadInfo.new 1 "a" ThreadPriority.MEDIUM 1000 (-1) 0 50,
              ThreadInfo.new 2 "a" ThreadPriority.MEDIUM 5000 (-1) 0 50], 3⟩ :
              ThreadManager).threads.drop 1) : Int) : ℚ) + (fun _ => 0) 1)) := by
  have hafter : (simulationStep
      ⟨[ThreadInfo.new 1 "a" ThreadPriority.MEDIUM 1000 (-1) 0 50,
        ThreadInfo.new 2 "a" ThreadPriority.MEDIUM 5000 (-1) 0 50], 3⟩ (fun _ => 0)).threads =
      [{ ThreadInfo.new 1 "a" ThreadPriority.MEDIUM 1000 (-1) 0 50 with
          state := ThreadState.COMPLETED, cpuUsage := 0, executionTime := 1000 },
        { ThreadInfo.new 2 "a" ThreadPriority.MEDIUM 5000 (-1) 0 50 with
          cpuUsage := 100, executionTime := 1000 }] := by
    simp [simulationStep, simulationLoop, tickThread, calculateCpuShare, totalWeight,
      priorityWeights, stdMax, stdMin, ThreadInfo.new, timeQuantum]
  exact (share_over_registry_when_reached
    ⟨[ThreadInfo.new 1 "a" ThreadPriority.MEDIUM 1000 (-1) 0 50,
      ThreadInfo.new 2 "a" ThreadPriority.MEDIUM 5000 (-1) 0 50], 3⟩ (fun _ => 0) 1
    (ThreadInfo.new 2 "a" ThreadPriority.MEDIUM 5000 (-1) 0 50)
    { ThreadInfo.new 2 "a" ThreadPriority.MEDIUM 5000 (-1) 0 50 with
        cpuUsage := 100, executionTime := 1000 }
    rfl rfl (by rw [hafter]; rfl) rfl).1


/-! ## CSV round trip -/

theorem splitOn_ne_nil (sep : Char) (l : List Char) : splitOn sep l ≠ [] := by
  cases l with
  | nil => simp [splitOn]
  | cons c cs =>
    unfold splitOn
    split
    · simp
    · split <;> simp

theorem splitOn_of_not_mem (sep : Char) (l : List Char) (h : sep ∉ l) :
    splitOn sep l = [l] := by
  induction l with
  | nil => rfl
  | cons c cs ih =>
    have hc : ¬ c = sep := fun e => h (by rw [e]; exact List.mem_cons_self _ _)
    have hcs : sep ∉ cs := fun e => h (List.mem_cons_of_mem _ e)
    simp [splitOn, hc, ih hcs]

theorem splitOn_append_sep (sep : Char) (l rest : List Char) (h : sep ∉ l) :
    splitOn sep (l ++ sep :: rest) = l :: splitOn sep rest := by
  induction l with
  | nil => simp [splitOn]
  | cons c cs ih =>
    have hc : ¬ c = sep := fun e => h (by rw [e]; exact List.mem_cons_self _ _)
    have hcs : sep ∉ cs := fun e => h (List.mem_cons_of_mem _ e)
    simp [splitOn, hc, ih hcs]

theorem digitChar_isDigit (k : Nat) (hk : k < 10) :
    (Nat.digitChar k).isDigit = true ∧ (Nat.digitChar k).toNat - 48 = k := by
  interval_cases k <;> exact ⟨by decide, by decide⟩

/-- The decimal digits that `Nat.toDigitsCore` puts in front of `ds`: at least
one, digits only, and read from the left they give back the number. -/
theorem toDigitsCore_spec (fuel : Nat) :
    ∀ (n : Nat) (ds : List Char), n < fuel →
      ∃ pre, Nat.toDigitsCore 10 fuel n ds = pre ++ ds ∧ pre ≠ [] ∧
        (∀ c ∈ pre, c.isDigit = true) ∧
        ∀ a : Nat, pre.foldl (fun acc c => acc * 10 + (c.toNat - 48)) a
          = a * 10 ^ pre.length + n := by
  induction fuel with
  | zero => intro n ds h; omega
  | succ fuel ih =>
    intro n ds h
    have hd := digitChar_isDigit (n % 10) (Nat.mod_lt _ (by norm_num))
    unfold Nat.toDigitsCore
    simp only
    split
    · rename_i h0
      refine ⟨[Nat.digitChar (n % 10)], rfl, by simp, ?_, ?_⟩
      · intro c hc
        rw [List.mem_singleton] at hc
        rw [hc]
        exact hd.1
      · intro a
        simp only [List.foldl_cons, List.foldl_nil, List.length_singleton, pow_one]
        rw [hd.2]
        omega
    · rename_i h0
      obtain ⟨pre, h1, _, h3, h4⟩ := ih (n / 10) (Nat.digitChar (n % 10) :: ds) (by omega)
      refine ⟨pre ++ [Nat.digitChar (n % 10)], by rw [h1]; simp, by simp, ?_, ?_⟩
      · intro c hc
        rcases List.mem_append.mp hc with hc | hc
        · exact h3 c hc
        · rw [List.mem_singleton] at hc
          rw [hc]
          exact hd.1
      · intro a
        rw [List.foldl_append, h4 a]
        simp only [List.foldl_cons, List.foldl_nil, List.length_append, List.length_singleton]
        rw [hd.2, pow_succ]
        have := Nat.div_add_mod n 10
        nlinarith [this]

theorem toString_nat_spec (n : Nat) :
    (toString n).data ≠ [] ∧ (∀ c ∈ (toString n).data, c.isDigit = true) ∧
      (toString n).data.foldl (fun acc c => acc * 10 + (c.toNat - 48)) 0 = n := by
  obtain ⟨pre, h1, h2, h3, h4⟩ := toDigitsCore_spec (n + 1) n [] (Nat.lt_succ_self n)
  have hdata : (toString n).data = pre := by
    show (Nat.toDigits 10 n) = pre
    rw [Nat.toDigits, h1, List.append_nil]
  rw [hdata]
  refine ⟨h2, h3, ?_⟩
  rw [h4 0]
  simp

theorem parseNat_toString (n : Nat) : parseNat (toString n).data = some n := by
  obtain ⟨h1, h2, h3⟩ := toString_nat_spec n
  unfold parseNat
  rw [if_pos ⟨h1, List.all_eq_true.mpr h2⟩, h3]

theorem toString_int_ofNat (n : Nat) : (toString (Int.ofNat n)).data = (toString n).data := rfl

theorem toString_int_negSucc (n : Nat) :
    (toString (Int.negSucc n)).data = Char.ofNat 45 :: (toString (n + 1)).data := rfl

theorem parseInt_toString (i : Int) : parseInt (toString i).data = some i := by
  cases i with
  | ofNat n =>
    obtain ⟨h1, h2, _⟩ := toString_nat_spec n
    rw [toString_int_ofNat]
    have hhead : ¬ (toString n).data.head? = some (Char.ofNat 45) := by
      cases hd : (toString n).data with
      | nil => simp
      | cons c cs =>
        have hc := h2 c (by rw [hd]; exact List.mem_cons_self _ _)
        simp only [List.head?_cons, Option.some.injEq]
        intro e
        rw [e] at hc
        exact absurd hc (by decide)
    unfold parseInt
    rw [if_neg hhead, parseNat_toString]
    rfl
  | negSucc n =>
    rw [toString_int_negSucc]
    unfold parseInt
    simp only [List.head?_cons, if_true, List.tail_cons]
    rw [parseNat_toString]
    rfl

theorem noSep_of_digits (l : List Char) (h : ∀ c ∈ l, c.isDigit = true) : NoSep l := by
  constructor
  · intro hm
    exact absurd (h _ hm) (by decide)
  · intro hm
    exact absurd (h _ hm) (by decide)

theorem noSep_append (l1 l2 : List Char) (h1 : NoSep l1) (h2 : NoSep l2) : NoSep (l1 ++ l2) := by
  constructor
  · intro hm
    rcases List.mem_append.mp hm with hm | hm
    · exact h1.1 hm
    · exact h2.1 hm
  · intro hm
    rcases List.mem_append.mp hm with hm | hm
    · exact h1.2 hm
    · exact h2.2 hm

theorem noSep_toString_nat (n : Nat) : NoSep (toString n).data :=
  noSep_of_digits _ (toString_nat_spec n).2.1

theorem noSep_toString_int (i : Int) : NoSep (toString i).data := by
  cases i with
  | ofNat n =>
    rw [toString_int_ofNat]
    exact noSep_toString_nat n
  | negSucc n =>
    rw [toString_int_negSucc]
    have h := noSep_toString_nat (n + 1)
    constructor
    · intro hm
      rcases List.mem_cons.mp hm with hm | hm
      · exact absurd hm (by decide)
      · exact h.1 hm
    · intro hm
      rcases List.mem_cons.mp hm with hm | hm
      · exact absurd hm (by decide)
      · exact h.2 hm

theorem noSep_fixed2 (x : ℚ) : NoSep (fixed2 x).data := by
  unfold fixed2
  simp only [String.data_append]
  refine noSep_append _ _ (noSep_append _ _ (noSep_append _ _ (noSep_append _ _ ?_
    (noSep_toString_nat _)) ?_) (noSep_toString_nat _)) (noSep_toString_nat _)
  · split
    · exact ⟨by decide, by decide⟩
    · exact ⟨by decide, by decide⟩
  · exact ⟨by decide, by decide⟩

theorem noSep_stateToString (s : ThreadState) : NoSep (stateToString s).data := by
  cases s <;> exact ⟨by decide, by decide⟩

theorem noSep_priorityToString (p : ThreadPriority) : NoSep (priorityToString p).data := by
  cases p <;> exact ⟨by decide, by decide⟩

theorem csvRow_data (t : ThreadInfo) :
    (csvRow t).data = joinFields (csvFields t) ++ [Char.ofNat 10] := by
  simp only [csvRow, csvFields, joinFields, String.data_append, List.append_assoc,
    List.cons_append]
  rfl

theorem splitOn_joinFields (fs : List (List Char)) (hne : fs ≠ [])
    (h : ∀ f ∈ fs, Char.ofNat 44 ∉ f) : splitOn (Char.ofNat 44) (joinFields fs) = fs := by
  induction fs with
  | nil => exact absurd rfl hne
  | cons f fs ih =>
    cases fs with
    | nil =>
      simp only [joinFields]
      exact splitOn_of_not_mem _ _ (h f (List.mem_cons_self _ _))
    | cons g gs =>
      simp only [joinFields]
      rw [splitOn_append_sep _ _ _ (h f (List.mem_cons_self _ _)),
        ih (by simp) (fun x hx => h x (List.mem_cons_of_mem _ hx))]

theorem newline_not_mem_joinFields (fs : List (List Char))
    (h : ∀ f ∈ fs, Char.ofNat 10 ∉ f) : Char.ofNat 10 ∉ joinFields fs := by
  induction fs with
  | nil => simp [joinFields]
  | cons f fs ih =>
    cases fs with
    | nil =>
      simp only [joinFields]
      exact h f (List.mem_cons_self _ _)
    | cons g gs =>
      simp only [joinFields]
      intro hm
      rcases List.mem_append.mp hm with hm | hm
      · exact h f (List.mem_cons_self _ _) hm
      · rcases List.mem_cons.mp hm with hm | hm
        · exact absurd hm (by decide)
        · exact ih (fun x hx => h x (List.mem_cons_of_mem _ hx)) hm

theorem exportToCSV_foldl (ts : List ThreadInfo) (acc : String) :
    (ts.foldl (fun file thread => file ++ csvRow thread) acc).data = acc.data ++ rowsData ts := by
  induction ts generalizing acc with
  | nil => simp [rowsData]
  | cons t ts ih =>
    simp only [List.foldl_cons, rowsData]
    rw [ih, String.data_append, List.append_assoc]

theorem exportToCSV_data (m : ThreadManager) :
    (exportToCSV m).data = csvHeader.data.dropLast ++ Char.ofNat 10 :: rowsData m.threads := by
  have hh : csvHeader.data = csvHeader.data.dropLast ++ [Char.ofNat 10] := by decide
  unfold exportToCSV
  rw [exportToCSV_foldl, hh]
  simp

theorem splitOn_rowsData (ts : List ThreadInfo)
    (h : ∀ t ∈ ts, Char.ofNat 10 ∉ joinFields (csvFields t)) :
    splitOn (Char.ofNat 10) (rowsData ts) =
      ts.map (fun t => joinFields (csvFields t)) ++ [[]] := by
  induction ts with
  | nil => rfl
  | cons t ts ih =>
    simp only [rowsData, csvRow_data, List.map_cons, List.cons_append]
    rw [List.append_assoc, List.singleton_append,
      splitOn_append_sep _ _ _ (h t (List.mem_cons_self _ _)),
      ih (fun x hx => h x (List.mem_cons_of_mem _ hx))]

/-- The lines that the re-parser reads after the header line are the lines of
the entities, as long as no line of an entity holds a line break. -/
theorem csvLines_exportToCSV (m : ThreadManager)
    (h : ∀ t ∈ m.threads, Char.ofNat 10 ∉ joinFields (csvFields t)) :
    (csvLines (exportToCSV m).data).drop 1 =
      m.threads.map (fun t => joinFields (csvFields t)) := by
  have hhdr : Char.ofNat 10 ∉ csvHeader.data.dropLast := by decide
  have hsplit : splitOn (Char.ofNat 10) (exportToCSV m).data =
      (csvHeader.data.dropLast :: m.threads.map (fun t => joinFields (csvFields t))) ++ [[]] := by
    rw [exportToCSV_data, splitOn_append_sep _ _ _ hhdr, splitOn_rowsData _ h]
    rfl
  unfold csvLines
  rw [hsplit, List.getLast?_concat, if_pos rfl, List.dropLast_concat]
  rfl

theorem csvFields_noSep (t : ThreadInfo) (hname : NoSep t.name.data) :
    ∀ f ∈ csvFields t, NoSep f := by
  intro f hf
  simp only [csvFields, List.mem_cons, List.mem_singleton, List.not_mem_nil, or_false] at hf
  rcases hf with rfl | rfl | rfl | rfl | rfl | rfl | rfl | rfl | rfl
  · exact noSep_toString_int _
  · exact hname
  · exact noSep_stateToString _
  · exact noSep_priorityToString _
  · exact noSep_fixed2 _
  · exact noSep_fixed2 _
  · exact noSep_toString_int _
  · exact noSep_toString_int _
  · exact noSep_fixed2 _

theorem parseRow_csvFields (t : ThreadInfo) (hname : NoSep t.name.data) :
    parseRow (joinFields (csvFields t)) = some (t.id, t.executionTime, t.burstTime) := by
  have hsplit : splitOn (Char.ofNat 44) (joinFields (csvFields t)) = csvFields t :=
    splitOn_joinFields _ (by simp [csvFields]) (fun f hf => (csvFields_noSep t hname f hf).1)
  unfold parseRow
  rw [hsplit]
  simp only [csvFields, List.getElem?_cons_zero, List.getElem?_cons_succ]
  rw [parseInt_toString, parseInt_toString, parseInt_toString]

theorem parseRows_map (ts : List ThreadInfo) (h : ∀ t ∈ ts, NoSep t.name.data) :
    parseRows (ts.map (fun t => joinFields (csvFields t))) =
      some (ts.map (fun t => (t.id, t.executionTime, t.burstTime))) := by
  induction ts with
  | nil => rfl
  | cons t ts ih =>
    simp only [List.map_cons, parseRows]
    rw [parseRow_csvFields t (h t (List.mem_cons_self _ _)),
      ih (fun x hx => h x (List.mem_cons_of_mem _ hx))]

/-- C18, amended: for every registry in which no entity name holds a comma or
a line break, re-parsing the text that `exportToCSV` writes (skip the header
line, split every row on commas, read the columns ID, Execution Time (ms) and
Burst Time (ms)) gives, in order, exactly the (id, executionTime, burstTime)
tuples of the entities of the registry. -/
theorem csv_round_trip_for_names_without_separator (m : ThreadManager)
    (hnames : ∀ t ∈ m.threads, NoSep t.name.data) :
    reparseCSV (exportToCSV m) =
      some (m.threads.map (fun t => (t.id, t.executionTime, t.burstTime))) := by
  unfold reparseCSV
  rw [csvLines_exportToCSV m (fun t ht =>
    newline_not_mem_joinFields _ (fun f hf => (csvFields_noSep t (hnames t ht) f hf).2))]
  exact parseRows_map m.threads hnames

/-- C18, as stated, fails: for the registry reached by creating one entity
with the name `a,b` (burst time 5000) the exported row splits into ten fields,
the column Execution Time (ms) reads `50.00`, and the re-parser gets no tuple
where the registry holds (1, 0, 5000). -/
theorem csv_round_trip_fails_for_name_with_comma :
    (runOps [Op.createThread "a,b" ThreadPriority.MEDIUM 5000 (-1) 12000 0 50]).threads.map
        (fun t => (t.id, t.executionTime, t.burstTime)) = [(1, 0, 5000)] ∧
    (splitOn (Char.ofNat 44) (joinFields (csvFields
        (ThreadInfo.new 1 "a,b" ThreadPriority.MEDIUM 5000 (-1) 0 50))))[6]? = some "50.00".data ∧
    reparseCSV (exportToCSV
      (runOps [Op.createThread "a,b" ThreadPriority.MEDIUM 5000 (-1) 12000 0 50])) = none := by
  have hm : (runOps [Op.createThread "a,b" ThreadPriority.MEDIUM 5000 (-1) 12000 0 50]).threads =
      [ThreadInfo.new 1 "a,b" ThreadPriority.MEDIUM 5000 (-1) 0 50] := rfl
  have hnl : ∀ t ∈ (runOps
      [Op.createThread "a,b" ThreadPriority.MEDIUM 5000 (-1) 12000 0 50]).threads,
      Char.ofNat 10 ∉ joinFields (csvFields t) := by
    rw [hm]
    intro t ht
    rw [List.mem_singleton] at ht
    rw [ht]
    with_unfolding_all decide
  have hrow : parseRow (joinFields (csvFields
      (ThreadInfo.new 1 "a,b" ThreadPriority.MEDIUM 5000 (-1) 0 50))) = none := by
    with_unfolding_all decide
  refine ⟨by rw [hm]; rfl, by with_unfolding_all decide, ?_⟩
  unfold reparseCSV
  rw [csvLines_exportToCSV _ hnl, hm]
  simp only [List.map_cons, List.map_nil, parseRows, hrow]

/-- The amended statement of C18 at the registry reached by creating two
entities with plain names and ticking once. -/
theorem csv_round_trip_for_names_without_separator_witness :
    (∀ t ∈ (runOps [Op.createThread "" ThreadPriority.MEDIUM 5000 (-1) 12000 0 50,
        Op.createThread "worker 2" ThreadPriority.HIGH (-1) 1 12000 0 60]).threads,
      NoSep t.name.data) ∧
    reparseCSV (exportToCSV
      (runOps [Op.createThread "" ThreadPriority.MEDIUM 5000 (-1) 12000 0 50,
        Op.createThread "worker 2" ThreadPriority.HIGH (-1) 1 12000 0 60])) =
      some ((runOps [Op.createThread "" ThreadPriority.MEDIUM 5000 (-1) 12000 0 50,
        Op.createThread "worker 2" ThreadPriority.HIGH (-1) 1 12000 0 60]).threads.map
          (fun t => (t.id, t.executionTime, t.burstTime))) := by
  have hm : (runOps [Op.createThread "" ThreadPriority.MEDIUM 5000 (-1) 12000 0 50,
        Op.createThread "worker 2" ThreadPriority.HIGH (-1) 1 12000 0 60]).threads =
      [ThreadInfo.new 1 "Thread-1" ThreadPriority.MEDIUM 5000 (-1) 0 50,
        ThreadInfo.new 2 "worker 2" ThreadPriority.HIGH 12000 1 0 60] := by
    decide
  have hnames : ∀ t ∈ (runOps [Op.createThread "" ThreadPriority.MEDIUM 5000 (-1) 12000 0 50,
        Op.createThread "worker 2" ThreadPriority.HIGH (-1) 1 12000 0 60]).threads,
      NoSep t.name.data := by
    rw [hm]
    intro t ht
    simp only [List.mem_cons, List.mem_singleton, List.not_mem_nil, or_false] at ht
    rcases ht with rfl | rfl
    · exact ⟨by decide, by decide⟩
    · exact ⟨by decide, by decide⟩
  exact ⟨hnames, csv_round_trip_for_names_without_separator _ hnames⟩


/-! ## pauseAllThreads followed by resumeAllThreads -/

theorem resume_pause_threads (m : ThreadManager) :
    (resumeAllThreads (pauseAllThreads m)).threads =
      m.threads.map (fun t =>
        if t.state = ThreadState.RUNNING ∨ t.state = ThreadState.PAUSED then
          { t with state := ThreadState.RUNNING }
        else t) := by
  simp only [resumeAllThreads, pauseAllThreads, List.map_map]
  apply List.map_congr_left
  intro t _
  simp only [Function.comp]
  by_cases hr : t.state = ThreadState.RUNNING
  · simp [hr]
  · by_cases hp : t.state = ThreadState.PAUSED
    · simp [hp]
    · simp [hr, hp]

theorem with_state_running_self (t : ThreadInfo) (h : t.state = ThreadState.RUNNING) :
    { t with state := ThreadState.RUNNING } = t := by
  cases t
  simp only at h
  subst h
  rfl

/-- C22: `pauseAllThreads` followed by `resumeAllThreads` keeps the number
and the order of the entities and the id counter; every entity that was RUNNING
or PAUSED is RUNNING afterwards, with its other fields as they were, and every
other entity is unchanged. The pair gives back the original registry if and
only if no entity was PAUSED before. -/
theorem pause_then_resume (m : ThreadManager) :
    (resumeAllThreads (pauseAllThreads m)).threads.length = m.threads.length ∧
    (resumeAllThreads (pauseAllThreads m)).nextThreadId = m.nextThreadId ∧
    (∀ (i : Nat) (t : ThreadInfo), m.threads[i]? = some t →
      (t.state = ThreadState.RUNNING ∨ t.state = ThreadState.PAUSED →
        (resumeAllThreads (pauseAllThreads m)).threads[i]? =
          some { t with state := ThreadState.RUNNING }) ∧
      (t.state ≠ ThreadState.RUNNING → t.state ≠ ThreadState.PAUSED →
        (resumeAllThreads (pauseAllThreads m)).threads[i]? = some t)) ∧
    (resumeAllThreads (pauseAllThreads m) = m ↔
      ∀ t ∈ m.threads, t.state ≠ ThreadState.PAUSED) := by
  have hget : ∀ (i : Nat) (t : ThreadInfo), m.threads[i]? = some t →
      (t.state = ThreadState.RUNNING ∨ t.state = ThreadState.PAUSED →
        (resumeAllThreads (pauseAllThreads m)).threads[i]? =
          some { t with state := ThreadState.RUNNING }) ∧
      (t.state ≠ ThreadState.RUNNING → t.state ≠ ThreadState.PAUSED →
        (resumeAllThreads (pauseAllThreads m)).threads[i]? = some t) := by
    intro i t hi
    rw [resume_pause_threads, List.getElem?_map, hi]
    constructor
    · intro h
      simp [h]
    · intro h1 h2
      simp [h1, h2]
  refine ⟨by rw [resume_pause_threads]; simp, rfl, hget, ?_⟩
  constructor
  · intro heq t ht hp
    obtain ⟨i, hi⟩ := List.getElem?_of_mem ht
    have h1 := (hget i t hi).1 (Or.inr hp)
    rw [heq, hi, Option.some.injEq] at h1
    have h2 : t.state = ThreadState.RUNNING := by
      have := congrArg ThreadInfo.state h1
      simpa using this
    rw [hp] at h2
    exact absurd h2 (by decide)
  · intro hno
    have hthreads : (resumeAllThreads (pauseAllThreads m)).threads = m.threads := by
      apply List.ext_getElem?
      intro i
      cases hi : m.threads[i]? with
      | none =>
        have hn : m.threads.length ≤ i := List.getElem?_eq_none_iff.mp hi
        rw [List.getElem?_eq_none]
        rw [resume_pause_threads]
        simpa using hn
      | some t =>
        by_cases hr : t.state = ThreadState.RUNNING
        · rw [(hget i t hi).1 (Or.inl hr), with_state_running_self t hr]
        · exact (hget i t hi).2 hr (hno t (List.getElem?_mem hi))
    have hnext : (resumeAllThreads (pauseAllThreads m)).nextThreadId = m.nextThreadId := rfl
    cases m
    simp only at hthreads hnext
    simp only [resumeAllThreads, pauseAllThreads] at hthreads ⊢
    rw [hthreads]

/-- The statement of C22 at a registry with a RUNNING, a PAUSED and a STOPPED
entity: the PAUSED one is RUNNING afterwards, the others are as they were. -/
theorem pause_then_resume_witness :
    (resumeAllThreads (pauseAllThreads
      ⟨[ThreadInfo.new 1 "a" ThreadPriority.LOW 3000 (-1) 0 50,
        { ThreadInfo.new 2 "b" ThreadPriority.HIGH 4000 (-1) 0 60 with
            state := ThreadState.PAUSED },
        { ThreadInfo.new 3 "c" ThreadPriority.HIGH 4000 (-1) 0 60 with
            state := ThreadState.STOPPED }], 4⟩)).threads[1]? =
      some { ({ ThreadInfo.new 2 "b" ThreadPriority.HIGH 4000 (-1) 0 60 with
            state := ThreadState.PAUSED } : ThreadInfo) with state := ThreadState.RUNNING } ∧
    (resumeAllThreads (pauseAllThreads
      ⟨[ThreadInfo.new 1 "a" ThreadPriority.LOW 3000 (-1) 0 50,
        { ThreadInfo.new 2 "b" ThreadPriority.HIGH 4000 (-1) 0 60 with
            state := ThreadState.PAUSED },
        { ThreadInfo.new 3 "c" ThreadPriority.HIGH 4000 (-1) 0 60 with
            state := ThreadState.STOPPED }], 4⟩)).threads[2]? =
      some { ThreadInfo.new 3 "c" ThreadPriority.HIGH 4000 (-1) 0 60 with
            state := ThreadState.STOPPED } :=
  ⟨((pause_then_resume
      ⟨[ThreadInfo.new 1 "a" ThreadPriority.LOW 3000 (-1) 0 50,
        { ThreadInfo.new 2 "b" ThreadPriority.HIGH 4000 (-1) 0 60 with
            state := ThreadState.PAUSED },
        { ThreadInfo.new 3 "c" ThreadPriority.HIGH 4000 (-1) 0 60 with
            state := ThreadState.STOPPED }], 4⟩).2.2.1 1
      { ThreadInfo.new 2 "b" ThreadPriority.HIGH 4000 (-1) 0 60 with
          state := ThreadState.PAUSED } rfl).1 (Or.inr rfl),
    ((pause_then_resume
      ⟨[ThreadInfo.new 1 "a" ThreadPriority.LOW 3000 (-1) 0 50,
        { ThreadInfo.new 2 "b" ThreadPriority.HIGH 4000 (-1) 0 60 with
            state := ThreadState.PAUSED },
        { ThreadInfo.new 3 "c" ThreadPriority.HIGH 4000 (-1) 0 60 with
            state := ThreadState.STOPPED }], 4⟩).2.2.1 2
      { ThreadInfo.new 3 "c" ThreadPriority.HIGH 4000 (-1) 0 60 with
          state := ThreadState.STOPPED } rfl).2 (by decide) (by decide)⟩


/-! ## The shares of a list add up to 100 -/

theorem baseShares_sum (allThreads s : List ThreadInfo) :
    (baseShares allThreads s).sum =
      (totalWeight s : ℚ) / (totalWeight allThreads : ℚ) * 100 := by
  induction s with
  | nil => simp [baseShares, totalWeight]
  | cons t rest ih =>
    rw [totalWeight_cons]
    unfold baseShares
    split
    · rename_i hrun
      rw [List.sum_cons, ih, baseShare]
      push_cast
      ring
    · rename_i hrun
      rw [ih]
      push_cast
      ring

theorem weight_le_totalWeight (allThreads : List ThreadInfo) (t : ThreadInfo)
    (ht : t ∈ allThreads) (hrun : t.state = ThreadState.RUNNING) :
    priorityWeights t.priority ≤ totalWeight allThreads := by
  induction allThreads with
  | nil => simp at ht
  | cons a l ih =>
    rw [totalWeight_cons]
    have hn := totalWeight_nonneg l
    rcases List.mem_cons.mp ht with rfl | ht
    · rw [if_pos hrun]
      omega
    · have := ih ht
      split
      · have := priorityWeights_pos a.priority
        omega
      · omega

theorem baseShare_bounds (allThreads : List ThreadInfo) (t : ThreadInfo)
    (ht : t ∈ allThreads) (hrun : t.state = ThreadState.RUNNING) :
    0 ≤ baseShare t allThreads ∧ baseShare t allThreads ≤ 100 := by
  have hw := priorityWeights_pos t.priority
  have hle := weight_le_totalWeight allThreads t ht hrun
  have hT : (0 : ℚ) < (totalWeight allThreads : ℚ) := by
    have : 0 < totalWeight allThreads := by omega
    exact_mod_cast this
  have hwq : (0 : ℚ) ≤ (priorityWeights t.priority : ℚ) := by
    exact_mod_cast le_of_lt hw
  have hleq : (priorityWeights t.priority : ℚ) ≤ (totalWeight allThreads : ℚ) := by
    exact_mod_cast hle
  unfold baseShare
  constructor
  · exact mul_nonneg (div_nonneg hwq (le_of_lt hT)) (by norm_num)
  · have : (priorityWeights t.priority : ℚ) / (totalWeight allThreads : ℚ) ≤ 1 :=
      (div_le_one hT).mpr hleq
    linarith

/-- The clamp moves a value no further from a point of the interval from 0 to
100 than the value was. -/
theorem clamp_near (base v : ℚ) (h0 : 0 ≤ base) (h100 : base ≤ 100)
    (hv : -5 ≤ v ∧ v ≤ 5) :
    base - 5 ≤ stdMax 0 (stdMin 100 (base + v)) ∧ stdMax 0 (stdMin 100 (base + v)) ≤ base + 5 := by
  unfold stdMax stdMin
  obtain ⟨hv1, hv2⟩ := hv
  split <;> split <;> constructor <;> linarith

theorem calculateCpuShare_near_base (allThreads : List ThreadInfo) (t : ThreadInfo)
    (ht : t ∈ allThreads) (hrun : t.state = ThreadState.RUNNING) (v : ℚ)
    (hv : -5 ≤ v ∧ v ≤ 5) :
    baseShare t allThreads - 5 ≤ calculateCpuShare t allThreads v ∧
      calculateCpuShare t allThreads v ≤ baseShare t allThreads + 5 := by
  have htotal : totalWeight allThreads ≠ 0 := by
    intro h0
    exact (totalWeight_eq_zero_iff allThreads).mp h0 t ht hrun
  rw [calculateCpuShare_eq_baseShare t allThreads v hrun htotal]
  obtain ⟨h0, h100⟩ := baseShare_bounds allThreads t ht hrun
  exact clamp_near _ v h0 h100 hv

theorem returnedShares_sum_bounds (noise : Nat → ℚ) (hnoise : ∀ i, -5 ≤ noise i ∧ noise i ≤ 5)
    (allThreads s : List ThreadInfo) :
    ∀ pos : Nat, (∀ t ∈ s, t ∈ allThreads) →
      (baseShares allThreads s).sum - 5 * (runningCount s : ℚ) ≤
        (returnedShares noise allThreads pos s).sum ∧
      (returnedShares noise allThreads pos s).sum ≤
        (baseShares allThreads s).sum + 5 * (runningCount s : ℚ) := by
  induction s with
  | nil =>
    intro pos _
    simp [baseShares, returnedShares, runningCount]
  | cons t rest ih =>
    intro pos hsub
    have hrest := ih (pos + 1) (fun x hx => hsub x (List.mem_cons_of_mem _ hx))
    by_cases hrun : t.state = ThreadState.RUNNING
    · have hnear := calculateCpuShare_near_base allThreads t (hsub t (List.mem_cons_self _ _))
        hrun (noise pos) (hnoise pos)
      have hcount : (runningCount (t :: rest) : ℚ) = (runningCount rest : ℚ) + 1 := by
        simp [runningCount, hrun]
      simp only [baseShares, returnedShares, hrun, if_true, List.sum_cons]
      rw [hcount]
      constructor <;> linarith [hrest.1, hrest.2, hnear.1, hnear.2]
    · have hcount : (runningCount (t :: rest) : ℚ) = (runningCount rest : ℚ) := by
        simp [runningCount, hrun]
      simp only [baseShares, returnedShares, hrun, if_false]
      rw [hcount]
      exact hrest

/-- C21: for every list with at least one RUNNING entity the shares before
the perturbation, `100 * weight / totalWeight`, of its RUNNING entities add up
to exactly 100, and they are the values to which `calculateCpuShare` adds the
perturbation before it clamps; so with every perturbation between -5 and 5 the
sum of the shares returned for the `n` RUNNING entities lies between
`100 - 5 * n` and `100 + 5 * n`. -/
theorem baseShares_sum_to_100 (allThreads : List ThreadInfo)
    (h : ∃ t ∈ allThreads, t.state = ThreadState.RUNNING) :
    (baseShares allThreads allThreads).sum = 100 ∧
    (∀ t ∈ allThreads, t.state = ThreadState.RUNNING →
      baseShare t allThreads =
        100 * (priorityWeights t.priority : ℚ) / (totalWeight allThreads : ℚ) ∧
      ∀ v : ℚ, calculateCpuShare t allThreads v =
        stdMax 0 (stdMin 100 (baseShare t allThreads + v))) ∧
    (∀ noise : Nat → ℚ, (∀ i, -5 ≤ noise i ∧ noise i ≤ 5) →
      100 - 5 * (runningCount allThreads : ℚ) ≤
        (returnedShares noise allThreads 0 allThreads).sum ∧
      (returnedShares noise allThreads 0 allThreads).sum ≤
        100 + 5 * (runningCount allThreads : ℚ)) := by
  obtain ⟨t0, ht0, hrun0⟩ := h
  have htotal : totalWeight allThreads ≠ 0 := by
    intro h0
    exact (totalWeight_eq_zero_iff allThreads).mp h0 t0 ht0 hrun0
  have hT : (totalWeight allThreads : ℚ) ≠ 0 := by exact_mod_cast htotal
  have hsum : (baseShares allThreads allThreads).sum = 100 := by
    rw [baseShares_sum, div_self hT]
    norm_num
  refine ⟨hsum, ?_, ?_⟩
  · intro t _ hrun
    refine ⟨?_, fun v => calculateCpuShare_eq_baseShare t allThreads v hrun htotal⟩
    unfold baseShare
    ring
  · intro noise hnoise
    have hb := returnedShares_sum_bounds noise hnoise allThreads allThreads 0 (fun _ ht => ht)
    rw [hsum] at hb
    exact hb

/-- The statement of C21 at a list with a RUNNING entity of priority LOW, a
PAUSED entity and a RUNNING entity of priority HIGH. -/
theorem baseShares_sum_to_100_witness :
    (∃ t ∈ [ThreadInfo.new 1 "a" ThreadPriority.LOW 3000 (-1) 0 50,
          { ThreadInfo.new 2 "b" ThreadPriority.MEDIUM 4000 (-1) 0 60 with
              state := ThreadState.PAUSED },
          ThreadInfo.new 3 "c" ThreadPriority.HIGH 4000 (-1) 0 60],
        t.state = ThreadState.RUNNING) ∧
    (baseShares
        [ThreadInfo.new 1 "a" ThreadPriority.LOW 3000 (-1) 0 50,
          { ThreadInfo.new 2 "b" ThreadPriority.MEDIUM 4000 (-1) 0 60 with
              state := ThreadState.PAUSED },
          ThreadInfo.new 3 "c" ThreadPriority.HIGH 4000 (-1) 0 60]
        [ThreadInfo.new 1 "a" ThreadPriority.LOW 3000 (-1) 0 50,
          { ThreadInfo.new 2 "b" ThreadPriority.MEDIUM 4000 (-1) 0 60 with
              state := ThreadState.PAUSED },
          ThreadInfo.new 3 "c" ThreadPriority.HIGH 4000 (-1) 0 60]).sum = 100 :=
  ⟨⟨_, List.mem_cons_self _ _, rfl⟩,
    (baseShares_sum_to_100
      [ThreadInfo.new 1 "a" ThreadPriority.LOW 3000 (-1) 0 50,
        { ThreadInfo.new 2 "b" ThreadPriority.MEDIUM 4000 (-1) 0 60 with
            state := ThreadState.PAUSED },
        ThreadInfo.new 3 "c" ThreadPriority.HIGH 4000 (-1) 0 60]
      ⟨_, List.mem_cons_self _ _, rfl⟩).1⟩

end ThreadMaestro
